import Mathlib

/-!
Verification of the weather_service orchestration core.

This file gives a shallow embedding, in Lean 4, of the scheduling / capacity /
gap-detection / ingestion logic of the repository, together with theorems
settling the specification claims about it.

Conventions of the embedding:
* Python `datetime` values are modelled as `Int` epoch seconds; Python `date`
  values and calendar keys (strftime "%Y-%m-%d" / "%Y-%m") are modelled as
  integer ordinals (`Int` day numbers, `Nat` calendar keys).  Lexicographic
  order on fixed-format date strings agrees with chronological order, so this
  is faithful.
* Python dicts are modelled as association lists in insertion order; `None`
  and "key absent" are modelled with `Option`.
* Fallible code (Python `raise`) returns `Option`/`Except`.
-/

/- ===================================================================
   GapDetector: src/celery_app/lib/utils.py, missing_date_ranges
   =================================================================== -/

/-- The run-collection loop of `missing_date_ranges` (utils.py lines 137-148):
walk every day from `cur` to `last`; days for which `present` is false form
runs; `run` carries the Python state pair (run_start, prev).  The `Nat` fuel
argument is the loop counter: the caller passes the exact number of remaining
days, `(last + 1 - cur).toNat`, so the recursion is structural. -/
def collectRunsGo (present : Int → Bool) (last : Int) :
    Nat → Int → Option (Int × Int) → List (Int × Int)
  | 0, _, run =>
    match run with
    | some (s, p) => [(s, p)]
    | none => []
  | fuel + 1, cur, run =>
    if cur ≤ last then
      if present cur then
        match run with
        | some (s, p) => (s, p) :: collectRunsGo present last fuel (cur + 1) none
        | none => collectRunsGo present last fuel (cur + 1) none
      else
        match run with
        | some (s, _) => collectRunsGo present last fuel (cur + 1) (some (s, cur))
        | none => collectRunsGo present last fuel (cur + 1) (some (cur, cur))
    else
      match run with
      | some (s, p) => [(s, p)]
      | none => []

/-- Maximal runs of consecutive missing days in `[start, last]`
(`missing_date_ranges` before the clipping pass). -/
def missingRuns (present : Int → Bool) (start last : Int) : List (Int × Int) :=
  collectRunsGo present last ((last + 1 - start).toNat) start none

/-- The clipping loop of `missing_date_ranges` (utils.py lines 156-161):
slice the run `[s, e]` into sub-ranges of at most `maxDays` days, left-aligned;
`span = max_days_in_range - 1`.  Fuel is again the day count, which bounds the
number of iterations. -/
def sliceRunGo (maxDays : Nat) (e : Int) : Nat → Int → List (Int × Int)
  | 0, _ => []
  | fuel + 1, s =>
    if s ≤ e then
      let subEnd := min (s + ((maxDays : Int) - 1)) e
      (s, subEnd) :: sliceRunGo maxDays e fuel (subEnd + 1)
    else []

/-- Slice the run `[s, e]` into left-aligned pieces of at most `maxDays` days. -/
def sliceRun (maxDays : Nat) (s e : Int) : List (Int × Int) :=
  sliceRunGo maxDays e ((e + 1 - s).toNat) s

/-- `missing_date_ranges` (utils.py lines 113-163).  The store query that
produces `present_dates` is external; the set of present dates is passed as
the decidable predicate `present`.  `start`/`last` are the `.date()` ordinals
of `start_dt`/`end_dt` (both non-null), `maxDays` is `max_days_in_range`. -/
def missing_date_ranges (present : Int → Bool) (start last : Int)
    (maxDays : Nat) : List (Int × Int) :=
  (missingRuns present start last).flatMap (fun r => sliceRun maxDays r.1 r.2)

/-- `d` is covered by one of the output ranges. -/
def covered (L : List (Int × Int)) (d : Int) : Prop :=
  ∃ r ∈ L, r.1 ≤ d ∧ d ≤ r.2

instance (L : List (Int × Int)) (d : Int) : Decidable (covered L d) := by
  unfold covered
  infer_instance

/-- Ranges are in chronological order, pairwise disjoint, each non-empty, and
the first one starts no earlier than `lo`: `(s, e)` requires `lo ≤ s ≤ e` and
the rest to be a chain starting at `e + 1`. -/
def chainB (lo : Int) : List (Int × Int) → Bool
  | [] => true
  | (s, e) :: rest => (decide (lo ≤ s) && decide (s ≤ e)) && chainB (e + 1) rest

/-- Chain for the un-clipped runs: consecutive runs of missing days are
separated by at least one present day, so the next run starts at `e + 2`
or later. -/
def runChainB (lo : Int) : List (Int × Int) → Bool
  | [] => true
  | (s, e) :: rest => (decide (lo ≤ s) && decide (s ≤ e)) && runChainB (e + 2) rest

/-- Head lower bound: the first range (if any) starts at `lo` or later. -/
def headLB (lo : Int) : List (Int × Int) → Bool
  | [] => true
  | (s, _) :: _ => decide (lo ≤ s)

/-- Left-aligned slicing: whenever two consecutive output ranges are adjacent
(the second starts the day after the first ends) the first one is a full
slice of exactly `maxDays` days. -/
def leftAlignedB (maxDays : Nat) : List (Int × Int) → Bool
  | (s1, e1) :: (s2, e2) :: rest =>
      (!(decide (s2 = e1 + 1)) || decide (e1 - s1 + 1 = (maxDays : Int))) &&
        leftAlignedB maxDays ((s2, e2) :: rest)
  | _ => true

/-- The adjacency condition between a range and the head of the next block. -/
def pairCondB (maxDays : Nat) (a : Int × Int) : List (Int × Int) → Bool
  | [] => true
  | (s2, _) :: _ =>
      !(decide (s2 = a.2 + 1)) || decide (a.2 - a.1 + 1 = (maxDays : Int))

example : missing_date_ranges (fun d => d == 1 || d == 2 || d == 5) 1 7 30 =
    [(3, 4), (6, 7)] := by decide

example : missing_date_ranges (fun d => d == 2) 1 9 3 =
    [(1, 1), (3, 5), (6, 8), (9, 9)] := by decide

example : chainB 1 [(1, 1), (3, 5), (6, 8), (9, 9)] = true := by decide

example : leftAlignedB 3 [(1, 1), (3, 5), (6, 8), (9, 9)] = true := by decide

example : leftAlignedB 3 [(1, 1), (2, 3)] = false := by decide

/- Step equations for collectRunsGo. -/

theorem collectRunsGo_zero (present : Int → Bool) (last cur : Int)
    (run : Option (Int × Int)) :
    collectRunsGo present last 0 cur run =
      (match run with | some (s, p) => [(s, p)] | none => []) := rfl

theorem collectRunsGo_step_true_none (present : Int → Bool) (last : Int)
    (fuel : Nat) (cur : Int) (h1 : cur ≤ last) (h2 : present cur = true) :
    collectRunsGo present last (fuel + 1) cur none =
      collectRunsGo present last fuel (cur + 1) none := by
  simp [collectRunsGo, h1, h2]

theorem collectRunsGo_step_true_some (present : Int → Bool) (last : Int)
    (fuel : Nat) (cur s p : Int) (h1 : cur ≤ last) (h2 : present cur = true) :
    collectRunsGo present last (fuel + 1) cur (some (s, p)) =
      (s, p) :: collectRunsGo present last fuel (cur + 1) none := by
  simp [collectRunsGo, h1, h2]

theorem collectRunsGo_step_false_none (present : Int → Bool) (last : Int)
    (fuel : Nat) (cur : Int) (h1 : cur ≤ last) (h2 : present cur = false) :
    collectRunsGo present last (fuel + 1) cur none =
      collectRunsGo present last fuel (cur + 1) (some (cur, cur)) := by
  simp [collectRunsGo, h1, h2]

theorem collectRunsGo_step_false_some (present : Int → Bool) (last : Int)
    (fuel : Nat) (cur s p : Int) (h1 : cur ≤ last) (h2 : present cur = false) :
    collectRunsGo present last (fuel + 1) cur (some (s, p)) =
      collectRunsGo present last fuel (cur + 1) (some (s, cur)) := by
  simp [collectRunsGo, h1, h2]

theorem covered_cons (a : Int × Int) (L : List (Int × Int)) (d : Int) :
    covered (a :: L) d ↔ (a.1 ≤ d ∧ d ≤ a.2) ∨ covered L d := by
  simp [covered]

/-- Membership characterization of the run-collection loop: with the loop
invariant on `run` (its `prev` component is the previous day and the run is
non-empty), a day is covered by the produced runs iff it lies in the pending
run or it is a missing day still ahead of the walk. -/
theorem collectRunsGo_covered (present : Int → Bool) (last : Int) :
    ∀ (fuel : Nat) (cur : Int) (run : Option (Int × Int)),
      fuel = (last + 1 - cur).toNat →
      (∀ s p, run = some (s, p) → p = cur - 1 ∧ s ≤ p) →
      ∀ d, covered (collectRunsGo present last fuel cur run) d ↔
        ((∃ s p, run = some (s, p) ∧ s ≤ d ∧ d ≤ p) ∨
         (cur ≤ d ∧ d ≤ last ∧ present d = false)) := by
  intro fuel
  induction fuel with
  | zero =>
    intro cur run hfuel hrun d
    have hlt : last < cur := by omega
    cases run with
    | none =>
      rw [collectRunsGo_zero]
      constructor
      · rintro ⟨r, hr, -, -⟩
        simp at hr
      · rintro (⟨s, p, hsp, -⟩ | ⟨h1, h2, -⟩)
        · exact absurd hsp (by simp)
        · omega
    | some sp =>
      obtain ⟨s, p⟩ := sp
      rw [collectRunsGo_zero]
      constructor
      · rintro ⟨r, hr, hd1, hd2⟩
        simp only [List.mem_singleton] at hr
        subst hr
        exact Or.inl ⟨s, p, rfl, hd1, hd2⟩
      · rintro (⟨s', p', hsp, hd1, hd2⟩ | ⟨h1, h2, -⟩)
        · simp only [Option.some.injEq, Prod.mk.injEq] at hsp
          obtain ⟨rfl, rfl⟩ := hsp
          exact ⟨(s, p), List.mem_singleton.mpr rfl, hd1, hd2⟩
        · omega
  | succ fuel ih =>
    intro cur run hfuel hrun d
    have hcl : cur ≤ last := by omega
    have hfuel' : fuel = (last + 1 - (cur + 1)).toNat := by omega
    cases hp : present cur with
    | true =>
      cases run with
      | none =>
        rw [collectRunsGo_step_true_none present last fuel cur hcl hp]
        rw [ih (cur + 1) none hfuel' (by simp) d]
        constructor
        · rintro (⟨s, p, hsp, -⟩ | ⟨h1, h2, h3⟩)
          · exact absurd hsp (by simp)
          · exact Or.inr ⟨by omega, h2, h3⟩
        · rintro (⟨s, p, hsp, -⟩ | ⟨h1, h2, h3⟩)
          · exact absurd hsp (by simp)
          · refine Or.inr ⟨?_, h2, h3⟩
            rcases eq_or_lt_of_le h1 with heq | hlt
            · rw [← heq] at h3
              rw [hp] at h3
              exact Bool.noConfusion h3
            · omega
      | some sp =>
        obtain ⟨s, p⟩ := sp
        obtain ⟨hinv1, hinv2⟩ := hrun s p rfl
        rw [collectRunsGo_step_true_some present last fuel cur s p hcl hp,
          covered_cons]
        rw [ih (cur + 1) none hfuel' (by simp) d]
        constructor
        · rintro (⟨hd1, hd2⟩ | (⟨s', p', hsp, -⟩ | ⟨h1, h2, h3⟩))
          · exact Or.inl ⟨s, p, rfl, hd1, hd2⟩
          · exact absurd hsp (by simp)
          · exact Or.inr ⟨by omega, h2, h3⟩
        · rintro (⟨s', p', hsp, hd1, hd2⟩ | ⟨h1, h2, h3⟩)
          · simp only [Option.some.injEq, Prod.mk.injEq] at hsp
            obtain ⟨rfl, rfl⟩ := hsp
            exact Or.inl ⟨hd1, hd2⟩
          · rcases eq_or_lt_of_le h1 with heq | hlt
            · rw [← heq] at h3
              rw [hp] at h3
              exact Bool.noConfusion h3
            · exact Or.inr (Or.inr ⟨by omega, h2, h3⟩)
    | false =>
      cases run with
      | none =>
        rw [collectRunsGo_step_false_none present last fuel cur hcl hp]
        rw [ih (cur + 1) (some (cur, cur)) hfuel'
          (by
            rintro s p hsp
            simp only [Option.some.injEq, Prod.mk.injEq] at hsp
            obtain ⟨rfl, rfl⟩ := hsp
            omega) d]
        constructor
        · rintro (⟨s', p', hsp, hd1, hd2⟩ | ⟨h1, h2, h3⟩)
          · simp only [Option.some.injEq, Prod.mk.injEq] at hsp
            obtain ⟨rfl, rfl⟩ := hsp
            have hd : d = cur := by omega
            refine Or.inr ⟨by omega, by omega, ?_⟩
            rw [hd]
            exact hp
          · exact Or.inr ⟨by omega, h2, h3⟩
        · rintro (⟨s', p', hsp, -, -⟩ | ⟨h1, h2, h3⟩)
          · exact absurd hsp (by simp)
          · rcases eq_or_lt_of_le h1 with heq | hlt
            · exact Or.inl ⟨cur, cur, rfl, by omega, by omega⟩
            · exact Or.inr ⟨by omega, h2, h3⟩
      | some sp =>
        obtain ⟨s, p⟩ := sp
        obtain ⟨hinv1, hinv2⟩ := hrun s p rfl
        rw [collectRunsGo_step_false_some present last fuel cur s p hcl hp]
        rw [ih (cur + 1) (some (s, cur)) hfuel'
          (by
            rintro s' p' hsp
            simp only [Option.some.injEq, Prod.mk.injEq] at hsp
            obtain ⟨rfl, rfl⟩ := hsp
            omega) d]
        constructor
        · rintro (⟨s', p', hsp, hd1, hd2⟩ | ⟨h1, h2, h3⟩)
          · simp only [Option.some.injEq, Prod.mk.injEq] at hsp
            obtain ⟨rfl, rfl⟩ := hsp
            rcases eq_or_lt_of_le hd2 with heq | hlt
            · refine Or.inr ⟨by omega, by omega, ?_⟩
              rw [heq]
              exact hp
            · exact Or.inl ⟨s, p, rfl, hd1, by omega⟩
          · exact Or.inr ⟨by omega, h2, h3⟩
        · rintro (⟨s', p', hsp, hd1, hd2⟩ | ⟨h1, h2, h3⟩)
          · simp only [Option.some.injEq, Prod.mk.injEq] at hsp
            obtain ⟨rfl, rfl⟩ := hsp
            exact Or.inl ⟨s, cur, rfl, hd1, by omega⟩
          · rcases eq_or_lt_of_le h1 with heq | hlt
            · exact Or.inl ⟨s, cur, rfl, by omega, by omega⟩
            · exact Or.inr ⟨by omega, h2, h3⟩

/-- The runs produced by the collection loop form a chain: chronologically
sorted, non-empty, and consecutive runs separated by at least one present
day. -/
theorem collectRunsGo_chain (present : Int → Bool) (last : Int) :
    ∀ (fuel : Nat) (cur : Int) (run : Option (Int × Int)) (lo : Int),
      (run = none → lo ≤ cur) →
      (∀ s p, run = some (s, p) → lo ≤ s ∧ s ≤ p ∧ p = cur - 1) →
      runChainB lo (collectRunsGo present last fuel cur run) = true := by
  intro fuel
  induction fuel with
  | zero =>
    intro cur run lo hnone hsome
    cases run with
    | none => rfl
    | some sp =>
      obtain ⟨s, p⟩ := sp
      obtain ⟨h1, h2, -⟩ := hsome s p rfl
      rw [collectRunsGo_zero]
      simp [runChainB, h1, h2]
  | succ fuel ih =>
    intro cur run lo hnone hsome
    by_cases hcl : cur ≤ last
    · cases hp : present cur with
      | true =>
        cases run with
        | none =>
          rw [collectRunsGo_step_true_none present last fuel cur hcl hp]
          exact ih (cur + 1) none lo (fun _ => by have := hnone rfl; omega)
            (by simp)
        | some sp =>
          obtain ⟨s, p⟩ := sp
          obtain ⟨h1, h2, h3⟩ := hsome s p rfl
          rw [collectRunsGo_step_true_some present last fuel cur s p hcl hp]
          simp only [runChainB, Bool.and_eq_true, decide_eq_true_eq]
          refine ⟨⟨h1, h2⟩, ?_⟩
          exact ih (cur + 1) none (p + 2) (fun _ => by omega) (by simp)
      | false =>
        cases run with
        | none =>
          rw [collectRunsGo_step_false_none present last fuel cur hcl hp]
          refine ih (cur + 1) (some (cur, cur)) lo (by simp) ?_
          rintro s p hsp
          simp only [Option.some.injEq, Prod.mk.injEq] at hsp
          obtain ⟨rfl, rfl⟩ := hsp
          exact ⟨hnone rfl, le_refl _, by omega⟩
        | some sp =>
          obtain ⟨s, p⟩ := sp
          obtain ⟨h1, h2, h3⟩ := hsome s p rfl
          rw [collectRunsGo_step_false_some present last fuel cur s p hcl hp]
          refine ih (cur + 1) (some (s, cur)) lo (by simp) ?_
          rintro s' p' hsp
          simp only [Option.some.injEq, Prod.mk.injEq] at hsp
          obtain ⟨rfl, rfl⟩ := hsp
          exact ⟨h1, by omega, by omega⟩
    · cases run with
      | none => simp [collectRunsGo, hcl, runChainB]
      | some sp =>
        obtain ⟨s, p⟩ := sp
        obtain ⟨h1, h2, -⟩ := hsome s p rfl
        simp [collectRunsGo, hcl, runChainB, h1, h2]

/- Step equations and facts for sliceRunGo. -/

theorem sliceRunGo_step (maxDays : Nat) (e : Int) (fuel : Nat) (s : Int)
    (hse : s ≤ e) :
    sliceRunGo maxDays e (fuel + 1) s =
      (s, min (s + ((maxDays : Int) - 1)) e) ::
        sliceRunGo maxDays e fuel (min (s + ((maxDays : Int) - 1)) e + 1) := by
  simp [sliceRunGo, hse]

theorem sliceRunGo_empty (maxDays : Nat) (e : Int) (fuel : Nat) (s : Int)
    (hse : ¬ s ≤ e) : sliceRunGo maxDays e fuel s = [] := by
  cases fuel with
  | zero => rfl
  | succ fuel => simp [sliceRunGo, hse]

/-- Coverage of the clipping loop: the slices of `[s, e]` cover exactly
`[s, e]`. -/
theorem sliceRunGo_covered (maxDays : Nat) (hmx : 1 ≤ maxDays) (e : Int) :
    ∀ (fuel : Nat) (s : Int), (e + 1 - s).toNat ≤ fuel →
      ∀ d, covered (sliceRunGo maxDays e fuel s) d ↔ (s ≤ d ∧ d ≤ e) := by
  intro fuel
  induction fuel with
  | zero =>
    intro s hf d
    have hse : ¬ s ≤ e := by omega
    rw [sliceRunGo_empty maxDays e 0 s hse]
    constructor
    · rintro ⟨r, hr, -, -⟩
      simp at hr
    · rintro ⟨h1, h2⟩
      omega
  | succ fuel ih =>
    intro s hf d
    by_cases hse : s ≤ e
    · have hmin := min_le_left (s + ((maxDays : Int) - 1)) e
      have hmin' := min_le_right (s + ((maxDays : Int) - 1)) e
      have hmin'' := le_min_iff.mpr
        (⟨by omega, hse⟩ : s ≤ s + ((maxDays : Int) - 1) ∧ s ≤ e)
      rw [sliceRunGo_step maxDays e fuel s hse, covered_cons]
      rw [ih (min (s + ((maxDays : Int) - 1)) e + 1) (by omega) d]
      constructor
      · rintro (⟨h1, h2⟩ | ⟨h1, h2⟩) <;> exact ⟨by omega, by omega⟩
      · rintro ⟨h1, h2⟩
        by_cases hd : d ≤ min (s + ((maxDays : Int) - 1)) e
        · exact Or.inl ⟨h1, hd⟩
        · exact Or.inr ⟨by omega, h2⟩
    · rw [sliceRunGo_empty maxDays e (fuel + 1) s hse]
      constructor
      · rintro ⟨r, hr, -, -⟩
        simp at hr
      · rintro ⟨h1, h2⟩
        omega

/-- Every slice produced by the clipping loop spans at most `maxDays` days. -/
theorem sliceRunGo_len (maxDays : Nat) (hmx : 1 ≤ maxDays) (e : Int) :
    ∀ (fuel : Nat) (s : Int), ∀ r ∈ sliceRunGo maxDays e fuel s,
      r.1 ≤ r.2 ∧ r.2 - r.1 + 1 ≤ (maxDays : Int) := by
  intro fuel
  induction fuel with
  | zero =>
    intro s r hr
    simp [sliceRunGo] at hr
  | succ fuel ih =>
    intro s r hr
    by_cases hse : s ≤ e
    · rw [sliceRunGo_step maxDays e fuel s hse] at hr
      have hmin := min_le_left (s + ((maxDays : Int) - 1)) e
      have hmin'' := le_min_iff.mpr
        (⟨by omega, hse⟩ : s ≤ s + ((maxDays : Int) - 1) ∧ s ≤ e)
      rcases List.mem_cons.mp hr with heq | hmem
      · subst heq
        constructor <;> simp <;> omega
      · exact ih _ r hmem
    · rw [sliceRunGo_empty maxDays e (fuel + 1) s hse] at hr
      simp at hr

theorem chainB_mono : ∀ (L : List (Int × Int)) (lo lo' : Int), lo' ≤ lo →
    chainB lo L = true → chainB lo' L = true := by
  intro L
  cases L with
  | nil => intro lo lo' h hc; rfl
  | cons a rest =>
    obtain ⟨s, e⟩ := a
    intro lo lo' h hc
    simp only [chainB, Bool.and_eq_true, decide_eq_true_eq] at hc ⊢
    exact ⟨⟨by omega, hc.1.2⟩, hc.2⟩

/-- Appending a sliced run in front of a chain that starts after the run
keeps the chain property. -/
theorem sliceRunGo_chain_append (maxDays : Nat) (hmx : 1 ≤ maxDays) (e : Int)
    (more : List (Int × Int)) :
    ∀ (fuel : Nat) (s lo : Int), (e + 1 - s).toNat ≤ fuel → s ≤ e + 1 →
      lo ≤ s → chainB (e + 1) more = true →
      chainB lo (sliceRunGo maxDays e fuel s ++ more) = true := by
  intro fuel
  induction fuel with
  | zero =>
    intro s lo hf hs1 hs2 hmore
    have hse : ¬ s ≤ e := by omega
    rw [sliceRunGo_empty maxDays e 0 s hse, List.nil_append]
    exact chainB_mono more (e + 1) lo (by omega) hmore
  | succ fuel ih =>
    intro s lo hf hs1 hs2 hmore
    by_cases hse : s ≤ e
    · have hmin := min_le_left (s + ((maxDays : Int) - 1)) e
      have hmin' := min_le_right (s + ((maxDays : Int) - 1)) e
      have hmin'' := le_min_iff.mpr
        (⟨by omega, hse⟩ : s ≤ s + ((maxDays : Int) - 1) ∧ s ≤ e)
      rw [sliceRunGo_step maxDays e fuel s hse, List.cons_append]
      simp only [chainB, Bool.and_eq_true, decide_eq_true_eq]
      refine ⟨⟨hs2, hmin''⟩, ?_⟩
      exact ih (min (s + ((maxDays : Int) - 1)) e + 1) _ (by omega) (by omega)
        (le_refl _) hmore
    · have hs : s = e + 1 := by omega
      rw [sliceRunGo_empty maxDays e (fuel + 1) s hse, List.nil_append]
      exact chainB_mono more (e + 1) lo (by omega) hmore

theorem leftAlignedB_cons (maxDays : Nat) (a : Int × Int)
    (T : List (Int × Int)) :
    leftAlignedB maxDays (a :: T) =
      (pairCondB maxDays a T && leftAlignedB maxDays T) := by
  obtain ⟨s1, e1⟩ := a
  cases T with
  | nil => rfl
  | cons b T' =>
    obtain ⟨s2, e2⟩ := b
    simp [leftAlignedB, pairCondB]

/-- Appending a sliced run in front of a left-aligned block whose first range
starts at least two days after the run ends keeps left-alignment. -/
theorem sliceRunGo_leftAligned_append (maxDays : Nat) (hmx : 1 ≤ maxDays)
    (e : Int) (more : List (Int × Int)) :
    ∀ (fuel : Nat) (s : Int), (e + 1 - s).toNat ≤ fuel → s ≤ e + 1 →
      leftAlignedB maxDays more = true → headLB (e + 2) more = true →
      leftAlignedB maxDays (sliceRunGo maxDays e fuel s ++ more) = true := by
  intro fuel
  induction fuel with
  | zero =>
    intro s hf hs1 hmore hhead
    have hse : ¬ s ≤ e := by omega
    rw [sliceRunGo_empty maxDays e 0 s hse, List.nil_append]
    exact hmore
  | succ fuel ih =>
    intro s hf hs1 hmore hhead
    by_cases hse : s ≤ e
    · have hmin := min_le_left (s + ((maxDays : Int) - 1)) e
      have hmin' := min_le_right (s + ((maxDays : Int) - 1)) e
      have hmin'' := le_min_iff.mpr
        (⟨by omega, hse⟩ : s ≤ s + ((maxDays : Int) - 1) ∧ s ≤ e)
      rw [sliceRunGo_step maxDays e fuel s hse, List.cons_append,
        leftAlignedB_cons]
      have htail : leftAlignedB maxDays
          (sliceRunGo maxDays e fuel (min (s + ((maxDays : Int) - 1)) e + 1) ++
            more) = true :=
        ih (min (s + ((maxDays : Int) - 1)) e + 1) (by omega) (by omega)
          hmore hhead
      rw [htail, Bool.and_true]
      by_cases hend : min (s + ((maxDays : Int) - 1)) e + 1 ≤ e
      · obtain ⟨fuel', rfl⟩ : ∃ fuel', fuel = fuel' + 1 := by
          refine ⟨fuel - 1, ?_⟩
          omega
        rw [sliceRunGo_step maxDays e fuel'
          (min (s + ((maxDays : Int) - 1)) e + 1) hend]
        have hminEq : min (s + ((maxDays : Int) - 1)) e =
            s + ((maxDays : Int) - 1) := by omega
        have hlen : s + ((maxDays : Int) - 1) - s + 1 = (maxDays : Int) := by
          omega
        simp [pairCondB, hminEq, hlen]
      · have hminE : min (s + ((maxDays : Int) - 1)) e = e := by omega
        rw [hminE]
        rw [sliceRunGo_empty maxDays e fuel (e + 1) (by omega), List.nil_append]
        cases more with
        | nil => rfl
        | cons b more' =>
          obtain ⟨s2, e2⟩ := b
          simp only [headLB, decide_eq_true_eq] at hhead
          simp only [pairCondB]
          have : ¬ (s2 = e + 1) := by omega
          simp [this]
    · rw [sliceRunGo_empty maxDays e (fuel + 1) s hse, List.nil_append]
      exact hmore

/-- Flattening the sliced runs of a run chain yields a chain of left-aligned
slices whose head still respects the lower bound. -/
theorem runs_flatMap_props (maxDays : Nat) (hmx : 1 ≤ maxDays) :
    ∀ (runs : List (Int × Int)) (lo : Int), runChainB lo runs = true →
      chainB lo (runs.flatMap (fun r => sliceRun maxDays r.1 r.2)) = true ∧
      leftAlignedB maxDays
        (runs.flatMap (fun r => sliceRun maxDays r.1 r.2)) = true ∧
      headLB lo (runs.flatMap (fun r => sliceRun maxDays r.1 r.2)) = true := by
  intro runs
  induction runs with
  | nil => intro lo h; exact ⟨rfl, rfl, rfl⟩
  | cons a rest ih =>
    obtain ⟨s, e⟩ := a
    intro lo h
    simp only [runChainB, Bool.and_eq_true, decide_eq_true_eq] at h
    obtain ⟨⟨hlo, hse⟩, hrest⟩ := h
    obtain ⟨ihc, ihl, ihh⟩ := ih (e + 2) hrest
    rw [List.flatMap_cons]
    obtain ⟨fuel', hfuel'⟩ : ∃ fuel', (e + 1 - s).toNat = fuel' + 1 := by
      refine ⟨(e + 1 - s).toNat - 1, ?_⟩
      omega
    refine ⟨?_, ?_, ?_⟩
    · exact sliceRunGo_chain_append maxDays hmx e _ ((e + 1 - s).toNat) s lo
        (le_refl _) (by omega) hlo
        (chainB_mono _ (e + 2) (e + 1) (by omega) ihc)
    · exact sliceRunGo_leftAligned_append maxDays hmx e _ ((e + 1 - s).toNat) s
        (le_refl _) (by omega) ihl ihh
    · rw [sliceRun, hfuel', sliceRunGo_step maxDays e fuel' s hse,
        List.cons_append]
      simp only [headLB, decide_eq_true_eq]
      exact hlo

/-- Per-run coverage of `sliceRun`. -/
theorem sliceRun_covered (maxDays : Nat) (hmx : 1 ≤ maxDays) (a b d : Int) :
    covered (sliceRun maxDays a b) d ↔ (a ≤ d ∧ d ≤ b) :=
  sliceRunGo_covered maxDays hmx b ((b + 1 - a).toNat) a (le_refl _) d

/-- Coverage transfers from the runs to the clipped output. -/
theorem missing_date_ranges_covered_iff (present : Int → Bool)
    (start last : Int) (maxDays : Nat) (hmx : 1 ≤ maxDays) (d : Int) :
    covered (missing_date_ranges present start last maxDays) d ↔
      covered (missingRuns present start last) d := by
  unfold missing_date_ranges
  constructor
  · rintro ⟨r', hmem, hd1, hd2⟩
    rcases List.mem_flatMap.mp hmem with ⟨r, hr, hr'⟩
    have := (sliceRun_covered maxDays hmx r.1 r.2 d).mp ⟨r', hr', hd1, hd2⟩
    exact ⟨r, hr, this⟩
  · rintro ⟨r, hr, hd1, hd2⟩
    rcases (sliceRun_covered maxDays hmx r.1 r.2 d).mpr ⟨hd1, hd2⟩ with
      ⟨r', hr', hd⟩
    exact ⟨r', List.mem_flatMap.mpr ⟨r, hr, hr'⟩, hd⟩

/-- The runs cover exactly the missing days of `[start, last]`. -/
theorem missingRuns_covered (present : Int → Bool) (start last : Int)
    (d : Int) :
    covered (missingRuns present start last) d ↔
      (start ≤ d ∧ d ≤ last ∧ present d = false) := by
  rw [missingRuns,
    collectRunsGo_covered present last ((last + 1 - start).toNat) start none
      rfl (by simp) d]
  constructor
  · rintro (⟨s, p, hsp, -⟩ | h)
    · exact absurd hsp (by simp)
    · exact h
  · exact Or.inr

/-- C2: for every set of existing dates, every date range `[start, last]` and
every positive `max_span_days`, the output of `missing_date_ranges`:
(1) covers exactly the dates in `[start, last]` not marked present;
(2) is chronologically sorted with pairwise disjoint non-empty ranges
    (`chainB`);
(3) has every range spanning at most `max_span_days` days;
(4) is left-aligned: two adjacent output ranges only arise when the first is
    a full slice of exactly `max_span_days` days (so runs are maximal and
    sliced left-aligned);
(5) is empty iff no date in the range is missing.
Together with coverage, (2)-(4) determine the output uniquely as the maximal
runs of consecutive missing days re-sliced left-aligned to at most
`max_span_days` days. -/
theorem C2_missing_date_ranges_correct (present : Int → Bool)
    (start last : Int) (maxDays : Nat) (hmx : 1 ≤ maxDays) :
    (∀ d, covered (missing_date_ranges present start last maxDays) d ↔
        (start ≤ d ∧ d ≤ last ∧ present d = false)) ∧
    chainB start (missing_date_ranges present start last maxDays) = true ∧
    (∀ r ∈ missing_date_ranges present start last maxDays,
        r.1 ≤ r.2 ∧ r.2 - r.1 + 1 ≤ (maxDays : Int)) ∧
    leftAlignedB maxDays (missing_date_ranges present start last maxDays) =
      true ∧
    (missing_date_ranges present start last maxDays = [] ↔
        ∀ d, start ≤ d → d ≤ last → present d = true) := by
  have hrc : runChainB start (missingRuns present start last) = true := by
    rw [missingRuns]
    exact collectRunsGo_chain present last ((last + 1 - start).toNat) start
      none start (fun _ => le_refl _) (by simp)
  obtain ⟨hch0, hla0, -⟩ :=
    runs_flatMap_props maxDays hmx (missingRuns present start last) start hrc
  have hch : chainB start (missing_date_ranges present start last maxDays) =
      true := hch0
  have hla : leftAlignedB maxDays
      (missing_date_ranges present start last maxDays) = true := hla0
  have hcov : ∀ d, covered (missing_date_ranges present start last maxDays) d ↔
      (start ≤ d ∧ d ≤ last ∧ present d = false) := fun d =>
    (missing_date_ranges_covered_iff present start last maxDays hmx d).trans
      (missingRuns_covered present start last d)
  refine ⟨hcov, hch, ?_, hla, ?_⟩
  · intro r hr
    rcases List.mem_flatMap.mp hr with ⟨a, -, ha⟩
    exact sliceRunGo_len maxDays hmx a.2 ((a.2 + 1 - a.1).toNat) a.1 r ha
  · constructor
    · intro hnil d h1 h2
      by_contra hd
      have hd' : present d = false := by
        cases hpd : present d with
        | true => exact absurd hpd hd
        | false => rfl
      have := (hcov d).mpr ⟨h1, h2, hd'⟩
      rw [hnil] at this
      rcases this with ⟨r, hr, -⟩
      simp at hr
    · intro hall
      cases hout : missing_date_ranges present start last maxDays with
      | nil => rfl
      | cons r t =>
        exfalso
        have hchain := hch
        rw [hout] at hchain
        obtain ⟨s, e⟩ := r
        simp only [chainB, Bool.and_eq_true, decide_eq_true_eq] at hchain
        obtain ⟨⟨hs1, hs2⟩, -⟩ := hchain
        have hcv : covered (missing_date_ranges present start last maxDays) s := by
          rw [hout]
          exact ⟨(s, e), List.mem_cons_self _ _, le_refl _, hs2⟩
        obtain ⟨hg1, hg2, hg3⟩ := (hcov s).mp hcv
        rw [hall s hg1 hg2] at hg3
        exact Bool.noConfusion hg3

/-- Witness for C2, scenario A of the specification: existing dates
Jan 1, Jan 2, Jan 5 (day ordinals 1, 2, 5), range Jan 1 - Jan 7,
`max_span_days = 30`: the output is [(Jan 3, Jan 4), (Jan 6, Jan 7)] and it
satisfies the chain property established by the theorem. -/
theorem C2_missing_date_ranges_correct_witness :
    1 ≤ 30 ∧
    missing_date_ranges (fun d => d == 1 || d == 2 || d == 5) 1 7 30 =
      [(3, 4), (6, 7)] ∧
    chainB 1 (missing_date_ranges (fun d => d == 1 || d == 2 || d == 5) 1 7 30)
      = true :=
  ⟨by decide, by decide,
    (C2_missing_date_ranges_correct (fun d => d == 1 || d == 2 || d == 5)
      1 7 30 (by decide)).2.1⟩

/- ===================================================================
   UsageCounter read side: src/celery_app/lib/utils.py,
   window_count and token_has_capacity
   =================================================================== -/

/-- A decision instant: epoch seconds plus the calendar keys produced by
strftime("%Y-%m-%d") and strftime("%Y-%m"), modelled as day / month ordinals
(fixed-format date strings compare lexicographically exactly as the ordinals
compare chronologically). -/
structure Instant where
  t : Int
  dayKey : Nat
  monthKey : Nat
deriving DecidableEq

/-- A sliding-window record as stored in the usage document:
start timestamp (none models a missing or unparsable "start" field) and
count. -/
structure RollingWindow where
  start : Option Int
  count : Int
deriving DecidableEq

/-- Lookup with default 0 in a calendar-counter dict (`.get(key, 0)`). -/
def lookupD (m : List (Nat × Int)) (k : Nat) : Int :=
  match m.find? (fun p => p.1 == k) with
  | some p => p.2
  | none => 0

/-- `window_count` (utils.py lines 53-61): the effective count of a sliding
window for a lock-free capacity read: 0 if the window dict is missing/empty,
0 if its start is missing or unparsable, 0 if the window has expired
(`now - start >= seconds`), and the stored count otherwise. -/
def window_count (win : Option RollingWindow) (now : Int) (seconds : Int) :
    Int :=
  match win with
  | none => 0
  | some w =>
    match w.start with
    | none => 0
    | some st => if now - st ≥ seconds then 0 else w.count

/-- The per-credential usage counters (`stat.meta["usage"]`).  The
observability strings last_status / last_url / last_at carried by the source
dict are not modelled.  A missing "usage" key is the value with empty
counters. -/
structure Usage where
  total : Int
  by_day : List (Nat × Int)
  by_month : List (Nat × Int)
  per_minute : Option RollingWindow
  per_hour : Option RollingWindow
deriving DecidableEq

/-- The provider's configured `config["limits"]` mapping: one optional
integer ceiling per known window name. -/
structure Limits where
  per_minute : Option Int
  per_hour : Option Int
  per_day : Option Int
  per_month : Option Int
deriving DecidableEq

/-- Python truthiness of the limits dict. -/
def Limits.isEmpty (l : Limits) : Bool :=
  l.per_minute.isNone && l.per_hour.isNone && l.per_day.isNone &&
    l.per_month.isNone

/-- `token_has_capacity` (utils.py lines 64-94), capacity component of the
returned pair.  `stat = none` models "no ProviderTokenStat row or empty
meta" (the no_stats branch); `some usage` models a stats row whose meta is
non-empty, with `usage` its (possibly empty) usage sub-dict. -/
def token_has_capacity (limits : Limits) (stat : Option Usage)
    (now : Instant) : Bool :=
  if limits.isEmpty then true
  else
    match stat with
    | none => true
    | some usage =>
      let pm := window_count usage.per_minute now.t 60
      let ph := window_count usage.per_hour now.t 3600
      let bd := lookupD usage.by_day now.dayKey
      let bm := lookupD usage.by_month now.monthKey
      let checks : List Bool :=
        (match limits.per_minute with
         | some l => [decide (pm < l)]
         | none => []) ++
        (match limits.per_hour with
         | some l => [decide (ph < l)]
         | none => []) ++
        (match limits.per_day with
         | some l => [decide (bd < l)]
         | none => []) ++
        (match limits.per_month with
         | some l => [decide (bm < l)]
         | none => [])
      checks.all id

/-- C3: `token_has_capacity` returns true whenever the provider configures no
limits, for any usage snapshot; with a usage snapshot present it returns the
conjunction, over every limit key configured, of effective_count < limit,
where the effective sliding-window count is the stored count while
`now - start < window_seconds` and 0 once that age is reached, and the
calendar counts are direct lookups for the current day/month key defaulting
to 0. -/
theorem C3_token_has_capacity_spec (limits : Limits) (stat : Option Usage)
    (now : Instant) (usage : Usage) :
    (limits.isEmpty = true → token_has_capacity limits stat now = true) ∧
    (token_has_capacity limits (some usage) now = true ↔
      ((∀ l, limits.per_minute = some l →
          window_count usage.per_minute now.t 60 < l) ∧
       (∀ l, limits.per_hour = some l →
          window_count usage.per_hour now.t 3600 < l) ∧
       (∀ l, limits.per_day = some l →
          lookupD usage.by_day now.dayKey < l) ∧
       (∀ l, limits.per_month = some l →
          lookupD usage.by_month now.monthKey < l))) ∧
    (∀ st c seconds, window_count (some ⟨some st, c⟩) now.t seconds =
      if now.t - st < seconds then c else 0) := by
  refine ⟨?_, ?_, ?_⟩
  · intro h
    simp [token_has_capacity, h]
  · by_cases h : limits.isEmpty = true
    · obtain ⟨pm, ph, pd, pmo⟩ := limits
      simp only [Limits.isEmpty, Bool.and_eq_true, Option.isNone_iff_eq_none]
        at h
      obtain ⟨⟨⟨h1, h2⟩, h3⟩, h4⟩ := h
      subst h1; subst h2; subst h3; subst h4
      simp [token_has_capacity, Limits.isEmpty]
    · obtain ⟨pm, ph, pd, pmo⟩ := limits
      simp only [token_has_capacity, h, if_false]
      cases pm <;> cases ph <;> cases pd <;> cases pmo <;>
        simp [List.all_eq_true]
  · intro st c seconds
    simp only [window_count]
    by_cases h : now.t - st ≥ seconds
    · rw [if_pos h, if_neg (by omega)]
    · rw [if_neg h, if_pos (by omega)]

/-- Witness for C3, scenario B of the specification: limits per_hour = 100,
per_hour window with count 100 started 10 minutes (600 s) ago: no capacity;
the same window observed 61 minutes (3660 s) after its start reads as 0:
capacity.  Also the no-limits case. -/
theorem C3_token_has_capacity_spec_witness :
    Limits.isEmpty ⟨none, none, none, none⟩ = true ∧
    token_has_capacity ⟨none, none, none, none⟩
      (some ⟨7, [], [], none, some ⟨some 400, 100⟩⟩) ⟨1000, 0, 0⟩ = true ∧
    token_has_capacity ⟨none, some 100, none, none⟩
      (some ⟨7, [], [], none, some ⟨some 400, 100⟩⟩) ⟨1000, 0, 0⟩ = false ∧
    token_has_capacity ⟨none, some 100, none, none⟩
      (some ⟨7, [], [], none, some ⟨some 400, 100⟩⟩) ⟨4060, 0, 0⟩ = true := by
  refine ⟨by decide, ?_, ?_, ?_⟩
  · exact (C3_token_has_capacity_spec ⟨none, none, none, none⟩
      (some ⟨7, [], [], none, some ⟨some 400, 100⟩⟩) ⟨1000, 0, 0⟩
      ⟨7, [], [], none, some ⟨some 400, 100⟩⟩).1 (by decide)
  · refine Bool.eq_false_iff.mpr (fun hb => ?_)
    have h := (C3_token_has_capacity_spec ⟨none, some 100, none, none⟩
      (some ⟨7, [], [], none, some ⟨some 400, 100⟩⟩) ⟨1000, 0, 0⟩
      ⟨7, [], [], none, some ⟨some 400, 100⟩⟩).2.1.mp hb
    have := h.2.1 100 rfl
    revert this
    decide
  · exact (C3_token_has_capacity_spec ⟨none, some 100, none, none⟩
      (some ⟨7, [], [], none, some ⟨some 400, 100⟩⟩) ⟨4060, 0, 0⟩
      ⟨7, [], [], none, some ⟨some 400, 100⟩⟩).2.1.mpr
      (by
        refine ⟨by simp, ?_, by simp, by simp⟩
        intro l hl
        cases hl
        decide)

/- ===================================================================
   CapacityGate credential selection:
   src/celery_app/tasks/weather.py, get_available_token_with_capacity
   =================================================================== -/

/-- An active credential of the provider, in the stable order returned by
`provider.tokens.filter(is_active=True)`: its id paired with its latest
usage snapshot (none = no stats row / empty meta). -/
abbrev TokenEntry := Nat × Option Usage

/-- The scan loop inside `get_available_token_with_capacity` (weather.py
lines 29-35): walk the tokens in order, return (True, id) for the first one
with capacity. -/
def scanTokens (limits : Limits) (now : Instant) :
    List TokenEntry → Bool × Option Nat
  | [] => (false, none)
  | t :: rest =>
    if token_has_capacity limits t.2 now then (true, some t.1)
    else scanTokens limits now rest

/-- `get_available_token_with_capacity` (weather.py lines 24-36): with no
active tokens report (has_capacity = True, token_id = None); otherwise
first-fit over the scan loop, reporting (False, None) if no token
qualifies.  All tokens of one provider share the provider's `limits`. -/
def get_available_token_with_capacity (limits : Limits)
    (tokens : List TokenEntry) (now : Instant) : Bool × Option Nat :=
  match tokens with
  | [] => (true, none)
  | _ :: _ => scanTokens limits now tokens

/-- C4: credential selection is first-fit over active credentials in a
stable order: no active credentials gives capacity = true with no
credential; otherwise the first credential in order for which the capacity
read is true is returned, and capacity = false is reported if none
qualifies. -/
theorem C4_get_available_token_first_fit (limits : Limits)
    (tokens : List TokenEntry) (now : Instant) :
    (tokens = [] →
      get_available_token_with_capacity limits tokens now = (true, none)) ∧
    (∀ pre t post, tokens = pre ++ t :: post →
      (∀ u ∈ pre, token_has_capacity limits u.2 now = false) →
      token_has_capacity limits t.2 now = true →
      get_available_token_with_capacity limits tokens now =
        (true, some t.1)) ∧
    ((tokens ≠ [] ∧ ∀ u ∈ tokens, token_has_capacity limits u.2 now = false) →
      get_available_token_with_capacity limits tokens now = (false, none)) := by
  refine ⟨?_, ?_, ?_⟩
  · intro h
    subst h
    rfl
  · intro pre t post heq hpre ht
    subst heq
    have hscan : ∀ (pre : List TokenEntry),
        (∀ u ∈ pre, token_has_capacity limits u.2 now = false) →
        scanTokens limits now (pre ++ t :: post) = (true, some t.1) := by
      intro pre
      induction pre with
      | nil =>
        intro _
        simp [scanTokens, ht]
      | cons u pre ih =>
        intro hpre
        have hu : token_has_capacity limits u.2 now = false :=
          hpre u (List.mem_cons_self _ _)
        simp only [List.cons_append, scanTokens, hu, Bool.false_eq_true,
          if_false]
        exact ih (fun v hv => hpre v (List.mem_cons_of_mem _ hv))
    cases pre with
    | nil =>
      simp only [List.nil_append]
      rw [get_available_token_with_capacity]
      exact hscan [] (by simp)
    | cons u pre' =>
      rw [show (u :: pre') ++ t :: post = u :: (pre' ++ t :: post) from rfl]
      rw [get_available_token_with_capacity]
      exact hscan (u :: pre')
        (by
          intro v hv
          exact hpre v hv)
  · rintro ⟨hne, hall⟩
    have hscan : ∀ (L : List TokenEntry),
        (∀ u ∈ L, token_has_capacity limits u.2 now = false) →
        scanTokens limits now L = (false, none) := by
      intro L
      induction L with
      | nil => intro _; rfl
      | cons u rest ih =>
        intro hL
        have hu : token_has_capacity limits u.2 now = false :=
          hL u (List.mem_cons_self _ _)
        simp only [scanTokens, hu, Bool.false_eq_true, if_false]
        exact ih (fun v hv => hL v (List.mem_cons_of_mem _ hv))
    cases tokens with
    | nil => exact absurd rfl hne
    | cons u rest =>
      rw [get_available_token_with_capacity]
      exact hscan (u :: rest) hall

/-- Witness for C4, scenario D of the specification: two credentials on one
provider, the first exhausted (per_day usage at its limit for today's key),
the second fresh (no stats): the second is returned with capacity true. -/
theorem C4_get_available_token_first_fit_witness :
    token_has_capacity ⟨none, none, some 10, none⟩
      (some ⟨10, [(5, 10)], [], none, none⟩) ⟨1000, 5, 0⟩ = false ∧
    token_has_capacity ⟨none, none, some 10, none⟩ none ⟨1000, 5, 0⟩ = true ∧
    get_available_token_with_capacity ⟨none, none, some 10, none⟩
      [(1, some ⟨10, [(5, 10)], [], none, none⟩), (2, none)] ⟨1000, 5, 0⟩ =
      (true, some 2) :=
  ⟨by decide, by decide,
    (C4_get_available_token_first_fit ⟨none, none, some 10, none⟩
      [(1, some ⟨10, [(5, 10)], [], none, none⟩), (2, none)] ⟨1000, 5, 0⟩).2.1
      [(1, some ⟨10, [(5, 10)], [], none, none⟩)] (2, none) [] rfl
      (by decide) (by decide)⟩

/- ===================================================================
   ScheduleGate: src/celery_app/lib/utils.py,
   parse_iso_duration and should_run
   =================================================================== -/

/-- Greedy digit scan: consume leading decimal digits of `cs`, accumulating
their value into `acc`, and return the value with the rest of the input. -/
def digitsAux : List Char → Nat → Nat × List Char
  | [], acc => (acc, [])
  | c :: cs, acc =>
    if c.isDigit then digitsAux cs (acc * 10 + (c.toNat - 48))
    else (acc, c :: cs)

/-- One regex group `\d+`: at least one digit, maximal munch. -/
def takeDigits (cs : List Char) : Option (Nat × List Char) :=
  match cs with
  | [] => none
  | c :: _ => if c.isDigit then some (digitsAux cs 0) else none

/-- The trailing `(?:(\d+)S)?$` part of the duration regex. -/
def parseSecPart (cs : List Char) : Option Nat :=
  match cs with
  | [] => some 0
  | _ =>
    match takeDigits cs with
    | some (n, 'S' :: rest) => if rest.isEmpty then some n else none
    | _ => none

/-- The `(?:(\d+)M)?(?:(\d+)S)?$` part: minutes then seconds. -/
def parseMinSecPart (cs : List Char) : Option (Nat × Nat) :=
  match cs with
  | [] => some (0, 0)
  | _ =>
    match takeDigits cs with
    | some (n, 'M' :: rest) => (parseSecPart rest).map (fun s => (n, s))
    | some (n, 'S' :: rest) => if rest.isEmpty then some (0, n) else none
    | _ => none

/-- The `(?:(\d+)H)?(?:(\d+)M)?(?:(\d+)S)?$` part after a `T`. -/
def parseHourMinSecPart (cs : List Char) : Option (Nat × Nat × Nat) :=
  match cs with
  | [] => some (0, 0, 0)
  | _ =>
    match takeDigits cs with
    | some (n, 'H' :: rest) =>
      (parseMinSecPart rest).map (fun ms => (n, ms.1, ms.2))
    | some (n, 'M' :: rest) => (parseSecPart rest).map (fun s => (0, n, s))
    | some (n, 'S' :: rest) => if rest.isEmpty then some (0, 0, n) else none
    | _ => none

/-- After the day group: either end of input, or a `T` introducing the time
part.  Returns the total duration in seconds (`timedelta.total_seconds`). -/
def parseAfterDays (d : Nat) (cs : List Char) : Option Nat :=
  match cs with
  | [] => some (d * 86400)
  | 'T' :: rest =>
    (parseHourMinSecPart rest).map
      (fun hms => d * 86400 + hms.1 * 3600 + hms.2.1 * 60 + hms.2.2)
  | _ => none

/-- `parse_iso_duration` (utils.py lines 18-33): the restricted ISO-8601
duration subset `^P(?:(\d+)D)?(?:T(?:(\d+)H)?(?:(\d+)M)?(?:(\d+)S)?)?$`,
all-integer components, returning the total seconds; `none` models both the
`None` input and a regex mismatch.  The input string is modelled as its
character list. -/
def parse_iso_duration (cs : List Char) : Option Nat :=
  match cs with
  | 'P' :: rest =>
    match takeDigits rest with
    | some (n, 'D' :: r) => parseAfterDays n r
    | some _ => none
    | none => parseAfterDays 0 rest
  | _ => none

example : parse_iso_duration ['P', 'T', '1', '5', 'M'] = some 900 := by decide
example : parse_iso_duration ['P', '1', 'D'] = some 86400 := by decide
example : parse_iso_duration
    ['P', '2', 'D', 'T', '3', 'H', '4', 'M', '5', 'S'] =
    some (2 * 86400 + 3 * 3600 + 4 * 60 + 5) := by decide
example : parse_iso_duration ['P'] = some 0 := by decide
example : parse_iso_duration ['P', 'T'] = some 0 := by decide
example : parse_iso_duration ['P', '5'] = none := by decide
example : parse_iso_duration ['P', 'T', '3', 'S', '5', 'M'] = none := by decide
example : parse_iso_duration ['1', '5', 'M'] = none := by decide
example : parse_iso_duration [] = none := by decide

/-- `should_run` (utils.py lines 97-110).  `period_iso` is the provider's
period string for this bucket (none = key missing / None: Python falsy also
covers the empty string, which the parser rejects anyway).  `last_at` is the
parse result of `link.status[mode_bucket]["last_update"]`: none models a
missing (mode, bucket) entry, a missing "last_update" value, or a value
`parse_iso_utc` cannot parse; `some t` is the parsed UTC timestamp.  `now`
is epoch seconds. -/
def should_run (period_iso : Option (List Char)) (last_at : Option Int)
    (now : Int) : Bool :=
  match period_iso with
  | none => false
  | some s =>
    if s.isEmpty then false
    else
      match parse_iso_duration s with
      | none => false
      | some secs =>
        if secs = 0 then false
        else
          match last_at with
          | none => true
          | some t => decide (now - t ≥ (secs : Int))

/-- C5: `should_run` is false whenever the period is missing, unparsable in
the restricted ISO-8601 subset, or parses to a non-positive duration,
regardless of the recorded last run; it is true when no last-run timestamp
is recorded (or the recorded value does not parse, which the embedding
folds into `none`); otherwise it is true iff `now - last_run_at >= period`. -/
theorem C5_should_run_spec (s : List Char) (last_at : Option Int) (now : Int) :
    (should_run none last_at now = false) ∧
    (parse_iso_duration s = none → should_run (some s) last_at now = false) ∧
    (parse_iso_duration s = some 0 → should_run (some s) last_at now = false) ∧
    (∀ k, parse_iso_duration s = some k → 0 < k →
      should_run (some s) none now = true) ∧
    (∀ k t, parse_iso_duration s = some k → 0 < k →
      (should_run (some s) (some t) now = true ↔ now - t ≥ (k : Int))) := by
  refine ⟨rfl, ?_, ?_, ?_, ?_⟩
  · intro h
    by_cases he : s.isEmpty
    · simp [should_run, he]
    · simp [should_run, he, h]
  · intro h
    by_cases he : s.isEmpty
    · simp [should_run, he]
    · simp [should_run, he, h]
  · intro k h hk
    have he : ¬ s.isEmpty := by
      cases s with
      | nil => exact absurd h (by simp [parse_iso_duration])
      | cons c cs => simp
    simp [should_run, he, h, Nat.pos_iff_ne_zero.mp hk]
  · intro k t h hk
    have he : ¬ s.isEmpty := by
      cases s with
      | nil => exact absurd h (by simp [parse_iso_duration])
      | cons c cs => simp
    simp [should_run, he, h, Nat.pos_iff_ne_zero.mp hk]

/-- Witness for C5, scenario C of the specification: period "PT15M"
(900 seconds); last run 600 s ago: do not run; last run 960 s ago: run;
no recorded last run: run. -/
theorem C5_should_run_spec_witness :
    parse_iso_duration ['P', 'T', '1', '5', 'M'] = some 900 ∧ 0 < 900 ∧
    should_run (some ['P', 'T', '1', '5', 'M']) (some 400) 1000 = false ∧
    should_run (some ['P', 'T', '1', '5', 'M']) (some 40) 1000 = true ∧
    should_run (some ['P', 'T', '1', '5', 'M']) none 1000 = true := by
  refine ⟨by decide, by decide, ?_, ?_, ?_⟩
  · refine Bool.eq_false_iff.mpr (fun hb => ?_)
    have h := ((C5_should_run_spec ['P', 'T', '1', '5', 'M'] (some 400)
      1000).2.2.2.2 900 400 (by decide) (by decide)).mp hb
    revert h
    decide
  · exact ((C5_should_run_spec ['P', 'T', '1', '5', 'M'] (some 40)
      1000).2.2.2.2 900 40 (by decide) (by decide)).mpr (by decide)
  · exact (C5_should_run_spec ['P', 'T', '1', '5', 'M'] none 1000).2.2.2.1
      900 (by decide) (by decide)

/- ===================================================================
   UsageCounter write side:
   src/weathers/interfaces/open_meteo_interface.py,
   _bump_rolling_window and update_provider_token_stats
   =================================================================== -/

/-- `_bump_rolling_window` (open_meteo_interface.py lines 14-26): if the
window dict is missing/empty, its start is missing or unparsable, or its age
has reached the window duration, replace it with a fresh window
(start := now, count := 0) and then increment, yielding count 1; otherwise
increment the stored count. -/
def _bump_rolling_window (win : Option RollingWindow) (now : Int)
    (seconds : Int) : RollingWindow :=
  match win with
  | none => ⟨some now, 1⟩
  | some w =>
    match w.start with
    | none => ⟨some now, 1⟩
    | some st =>
      if now - st ≥ seconds then ⟨some now, 1⟩ else ⟨some st, w.count + 1⟩

/-- Python dict item assignment `m[k] = v`: replace in place if the key
exists, else append (insertion order). -/
def setKey (m : List (Nat × Int)) (k : Nat) (v : Int) : List (Nat × Int) :=
  if m.any (fun p => p.1 == k) then
    m.map (fun p => if p.1 == k then (k, v) else p)
  else m ++ [(k, v)]

/-- The calendar-map pruning step (open_meteo_interface.py lines 165-170):
if the dict has grown past `high` keys, drop the entries whose keys fall in
`sorted(keys)[: -keep]`, keeping the `keep` most recent ones. -/
def pruneOldKeys (m : List (Nat × Int)) (high keep : Nat) :
    List (Nat × Int) :=
  if m.length > high then
    let ks := List.insertionSort (fun a b => a ≤ b) (m.map Prod.fst)
    let doomed := ks.take (ks.length - keep)
    m.filter (fun p => !(doomed.contains p.1))
  else m

/-- Per-window `exceeded` flags, as stored in `meta["exceeded"]`
(one optional flag per limit key present in the merged limits). -/
structure Exceeded where
  per_minute : Option Bool
  per_hour : Option Bool
  per_day : Option Bool
  per_month : Option Bool
deriving DecidableEq

/-- The stats document `ProviderTokenStat.meta`: usage counters plus the
stored limits / exceeded snapshot (all-none `Limits` models a missing
"limits" key). -/
structure TokenStatMeta where
  usage : Usage
  limits : Limits
  exceeded : Exceeded
deriving DecidableEq

/-- `meta["limits"].update(provider.config["limits"])`: provider values
override stored ones key-wise; an empty provider dict leaves the stored
limits unchanged. -/
def mergeLimits (old prov : Limits) : Limits :=
  { per_minute := (prov.per_minute.orElse (fun _ => old.per_minute))
    per_hour := (prov.per_hour.orElse (fun _ => old.per_hour))
    per_day := (prov.per_day.orElse (fun _ => old.per_day))
    per_month := (prov.per_month.orElse (fun _ => old.per_month)) }

/-- `update_provider_token_stats` (open_meteo_interface.py lines 109-173):
the pure state transformation applied, under the row lock, to the stats
document.  It increments total / by_day[today] / by_month[this month],
bumps both sliding windows, recomputes the exceeded flags for every key of
the merged limits (using the post-increment counts, before pruning), stores
limits/exceeded only when the merged limits are non-empty, and finally
prunes by_day to the 120 newest of more than 150 keys and by_month to the
24 newest of more than 30.  The observability fields last_status / last_url
/ last_at are not modelled. -/
def update_provider_token_stats (provLimits : Limits) (meta : TokenStatMeta)
    (now : Instant) : TokenStatMeta :=
  let usage := meta.usage
  let total1 := usage.total + 1
  let byDay1 := setKey usage.by_day now.dayKey
    (lookupD usage.by_day now.dayKey + 1)
  let byMonth1 := setKey usage.by_month now.monthKey
    (lookupD usage.by_month now.monthKey + 1)
  let pm := _bump_rolling_window usage.per_minute now.t 60
  let ph := _bump_rolling_window usage.per_hour now.t 3600
  let limits1 := mergeLimits meta.limits provLimits
  let exceeded1 : Exceeded :=
    { per_minute := limits1.per_minute.map (fun l => decide (pm.count ≥ l))
      per_hour := limits1.per_hour.map (fun l => decide (ph.count ≥ l))
      per_day := limits1.per_day.map
        (fun l => decide (lookupD byDay1 now.dayKey ≥ l))
      per_month := limits1.per_month.map
        (fun l => decide (lookupD byMonth1 now.monthKey ≥ l)) }
  { usage :=
      { total := total1
        by_day := pruneOldKeys byDay1 150 120
        by_month := pruneOldKeys byMonth1 30 24
        per_minute := some pm
        per_hour := some ph }
    limits := if limits1.isEmpty then meta.limits else limits1
    exceeded := if limits1.isEmpty then meta.exceeded else exceeded1 }

theorem lookupD_cons_eq (p : Nat × Int) (rest : List (Nat × Int)) (k : Nat)
    (h : (p.1 == k) = true) : lookupD (p :: rest) k = p.2 := by
  unfold lookupD
  rw [List.find?_cons]
  simp [h]

theorem lookupD_cons_ne (p : Nat × Int) (rest : List (Nat × Int)) (k : Nat)
    (h : (p.1 == k) = false) : lookupD (p :: rest) k = lookupD rest k := by
  unfold lookupD
  rw [List.find?_cons]
  simp [h]

theorem lookupD_setKey_self (m : List (Nat × Int)) (k : Nat) (v : Int) :
    lookupD (setKey m k v) k = v := by
  unfold setKey
  by_cases h : m.any (fun p => p.1 == k)
  · rw [if_pos h]
    induction m with
    | nil => simp at h
    | cons p rest ih =>
      by_cases hp : (p.1 == k) = true
      · rw [List.map_cons, if_pos hp]
        exact lookupD_cons_eq (k, v) _ k (by simp)
      · rw [Bool.not_eq_true] at hp
        simp only [List.any_cons, hp, Bool.false_or] at h
        rw [List.map_cons, if_neg (by simp [hp])]
        rw [lookupD_cons_ne p _ k hp]
        exact ih h
  · rw [if_neg h]
    have hnone : m.find? (fun p => p.1 == k) = none := by
      rw [List.find?_eq_none]
      intro p hp hpk
      exact h (List.any_eq_true.mpr ⟨p, hp, hpk⟩)
    unfold lookupD
    rw [List.find?_append, hnone]
    simp [List.find?]

theorem setKey_keys (m : List (Nat × Int)) (k : Nat) (v : Int) :
    (setKey m k v).map Prod.fst =
      (if m.any (fun p => p.1 == k) then m.map Prod.fst
       else m.map Prod.fst ++ [k]) := by
  unfold setKey
  by_cases h : m.any (fun p => p.1 == k)
  · rw [if_pos h, if_pos h, List.map_map]
    refine List.map_congr_left ?_
    intro p hp
    by_cases hpk : (p.1 == k) = true
    · simp only [Function.comp_apply, if_pos hpk]
      exact (eq_of_beq hpk).symm
    · have hne : p.1 ≠ k := by simpa using hpk
      simp [Function.comp_apply, hne]
  · rw [if_neg h, if_neg h, List.map_append]
    rfl

theorem setKey_key_mem (m : List (Nat × Int)) (k : Nat) (v : Int) :
    k ∈ (setKey m k v).map Prod.fst := by
  rw [setKey_keys]
  by_cases h : m.any (fun p => p.1 == k)
  · rw [if_pos h]
    rcases List.any_eq_true.mp h with ⟨p, hp, hpk⟩
    rw [← eq_of_beq hpk]
    exact List.mem_map_of_mem Prod.fst hp
  · rw [if_neg h]
    exact List.mem_append_right _ (List.mem_singleton.mpr rfl)

theorem setKey_keys_bound (m : List (Nat × Int)) (k : Nat) (v : Int) (K : Nat)
    (hk : k ≤ K) (hm : ∀ x ∈ m.map Prod.fst, x ≤ K) :
    ∀ x ∈ (setKey m k v).map Prod.fst, x ≤ K := by
  intro x hx
  rw [setKey_keys] at hx
  by_cases h : m.any (fun p => p.1 == k)
  · rw [if_pos h] at hx
    exact hm x hx
  · rw [if_neg h] at hx
    rcases List.mem_append.mp hx with hx | hx
    · exact hm x hx
    · rw [List.mem_singleton.mp hx]
      exact hk

theorem setKey_keys_nodup (m : List (Nat × Int)) (k : Nat) (v : Int)
    (hm : (m.map Prod.fst).Nodup) :
    ((setKey m k v).map Prod.fst).Nodup := by
  rw [setKey_keys]
  by_cases h : m.any (fun p => p.1 == k)
  · rw [if_pos h]
    exact hm
  · rw [if_neg h]
    have hk : k ∉ m.map Prod.fst := by
      intro hmem
      rcases List.mem_map.mp hmem with ⟨p, hp, hpk⟩
      exact h (List.any_eq_true.mpr ⟨p, hp, by simp [hpk]⟩)
    rw [List.nodup_append]
    refine ⟨hm, List.nodup_singleton _, ?_⟩
    intro a ha hb
    rw [List.mem_singleton] at hb
    subst hb
    exact hk ha

theorem lookupD_filter (m : List (Nat × Int)) (pred : Nat × Int → Bool)
    (K : Nat) (h : ∀ p ∈ m, p.1 = K → pred p = true) :
    lookupD (m.filter pred) K = lookupD m K := by
  induction m with
  | nil => rfl
  | cons p rest ih =>
    by_cases hpk : (p.1 == K) = true
    · have hpred : pred p = true :=
        h p (List.mem_cons_self _ _) (eq_of_beq hpk)
      rw [List.filter_cons_of_pos hpred]
      rw [lookupD_cons_eq p _ K hpk, lookupD_cons_eq p _ K hpk]
    · rw [Bool.not_eq_true] at hpk
      by_cases hpred : pred p = true
      · rw [List.filter_cons_of_pos hpred]
        rw [lookupD_cons_ne p _ K hpk, lookupD_cons_ne p _ K hpk]
        exact ih (fun q hq hqk => h q (List.mem_cons_of_mem _ hq) hqk)
      · rw [List.filter_cons_of_neg (by simpa using hpred)]
        rw [lookupD_cons_ne p _ K hpk]
        exact ih (fun q hq hqk => h q (List.mem_cons_of_mem _ hq) hqk)

/-- In a sorted permutation of a duplicate-free list whose maximum is `K`,
`K` sits at the last position only, so it never falls in a proper prefix. -/
theorem max_not_in_take (l : List Nat) (K : Nat) (k : Nat)
    (hnd : l.Nodup) (_hK : K ∈ l) (hbound : ∀ x ∈ l, x ≤ K)
    (hk : k < l.length) :
    K ∉ (List.insertionSort (fun a b => a ≤ b) l).take k := by
  intro hKt
  set s := List.insertionSort (fun a b => a ≤ b) l with hs
  have hperm : s.Perm l := List.perm_insertionSort _ l
  have hsort : List.Sorted (fun a b => a ≤ b) s :=
    List.sorted_insertionSort _ l
  have hlen : s.length = l.length := hperm.length_eq
  have hnds : s.Nodup := (hperm.nodup_iff).mpr hnd
  obtain ⟨i, hi, hgi⟩ := List.getElem_of_mem hKt
  have hik : i < k := by
    have := hi
    simp only [List.length_take] at this
    omega
  have his : i < s.length := by
    have := hi
    simp only [List.length_take] at this
    omega
  have hgi' : s[i] = K := by
    rw [← hgi, List.getElem_take]
  have hlast : s.length - 1 < s.length := by omega
  have hin : i < s.length - 1 := by omega
  have h1 : s[i] ≤ s[s.length - 1] :=
    List.pairwise_iff_getElem.mp hsort i (s.length - 1) his hlast hin
  have h2 : s[s.length - 1] ≤ K :=
    hbound _ (hperm.mem_iff.mp (List.getElem_mem hlast))
  have h3 : s[i] = s[s.length - 1] := by omega
  have h4 : s[i] ≠ s[s.length - 1] :=
    List.pairwise_iff_getElem.mp hnds i (s.length - 1) his hlast hin
  exact h4 h3

/-- Pruning never disturbs the entry of the maximal key. -/
theorem lookupD_pruneOldKeys (m : List (Nat × Int)) (high keep : Nat)
    (K : Nat) (hkeep : 1 ≤ keep) (hnd : (m.map Prod.fst).Nodup)
    (hbound : ∀ x ∈ m.map Prod.fst, x ≤ K) (hK : K ∈ m.map Prod.fst) :
    lookupD (pruneOldKeys m high keep) K = lookupD m K := by
  unfold pruneOldKeys
  by_cases hlen : m.length > high
  · rw [if_pos hlen]
    refine lookupD_filter m _ K ?_
    intro p hp hpk
    have hklen : (List.insertionSort (fun a b => a ≤ b)
        (m.map Prod.fst)).length = m.length := by
      rw [(List.perm_insertionSort _ _).length_eq, List.length_map]
    have hx : K ∉ (List.insertionSort (fun a b => a ≤ b)
        (m.map Prod.fst)).take ((List.insertionSort (fun a b => a ≤ b)
          (m.map Prod.fst)).length - keep) := by
      refine max_not_in_take (m.map Prod.fst) K _ hnd hK hbound ?_
      rw [hklen, List.length_map]
      omega
    rw [hpk]
    simp only [Bool.not_eq_true']
    rw [← Bool.not_eq_true]
    intro hcont
    exact hx (List.elem_iff.mp hcont)
  · rw [if_neg hlen]

/-- C6: one usage-recording update increments total, by_day[today] and
by_month[this month] each by exactly 1 (the hypotheses say the stored
calendar keys are no newer than the current key and duplicate-free, which
makes the increment survive the pruning of old keys); it replaces each
sliding window (per_minute 60 s, per_hour 3600 s) with
(start := now, count := 1) when the window is absent or its age has reached
its duration and increments its count otherwise; and it recomputes
exceeded[window] as count_or_bucket_value >= limit for every limit key
present in the provider's configured limits (with the post-increment
counts). -/
theorem C6_update_provider_token_stats_spec (provLimits : Limits)
    (meta : TokenStatMeta) (now : Instant)
    (hdb : ∀ x ∈ meta.usage.by_day.map Prod.fst, x ≤ now.dayKey)
    (hdn : (meta.usage.by_day.map Prod.fst).Nodup)
    (hmb : ∀ x ∈ meta.usage.by_month.map Prod.fst, x ≤ now.monthKey)
    (hmn : (meta.usage.by_month.map Prod.fst).Nodup) :
    (update_provider_token_stats provLimits meta now).usage.total =
      meta.usage.total + 1 ∧
    lookupD (update_provider_token_stats provLimits meta now).usage.by_day
      now.dayKey = lookupD meta.usage.by_day now.dayKey + 1 ∧
    lookupD (update_provider_token_stats provLimits meta now).usage.by_month
      now.monthKey = lookupD meta.usage.by_month now.monthKey + 1 ∧
    (meta.usage.per_minute = none →
      (update_provider_token_stats provLimits meta now).usage.per_minute =
        some ⟨some now.t, 1⟩) ∧
    (∀ st c, meta.usage.per_minute = some ⟨some st, c⟩ →
      (now.t - st ≥ 60 →
        (update_provider_token_stats provLimits meta now).usage.per_minute =
          some ⟨some now.t, 1⟩) ∧
      (now.t - st < 60 →
        (update_provider_token_stats provLimits meta now).usage.per_minute =
          some ⟨some st, c + 1⟩)) ∧
    (meta.usage.per_hour = none →
      (update_provider_token_stats provLimits meta now).usage.per_hour =
        some ⟨some now.t, 1⟩) ∧
    (∀ st c, meta.usage.per_hour = some ⟨some st, c⟩ →
      (now.t - st ≥ 3600 →
        (update_provider_token_stats provLimits meta now).usage.per_hour =
          some ⟨some now.t, 1⟩) ∧
      (now.t - st < 3600 →
        (update_provider_token_stats provLimits meta now).usage.per_hour =
          some ⟨some st, c + 1⟩)) ∧
    (∀ l, provLimits.per_minute = some l →
      (update_provider_token_stats provLimits meta now).exceeded.per_minute =
        some (decide
          ((_bump_rolling_window meta.usage.per_minute now.t 60).count ≥ l))) ∧
    (∀ l, provLimits.per_hour = some l →
      (update_provider_token_stats provLimits meta now).exceeded.per_hour =
        some (decide
          ((_bump_rolling_window meta.usage.per_hour now.t 3600).count ≥ l))) ∧
    (∀ l, provLimits.per_day = some l →
      (update_provider_token_stats provLimits meta now).exceeded.per_day =
        some (decide (lookupD meta.usage.by_day now.dayKey + 1 ≥ l))) ∧
    (∀ l, provLimits.per_month = some l →
      (update_provider_token_stats provLimits meta now).exceeded.per_month =
        some (decide (lookupD meta.usage.by_month now.monthKey + 1 ≥ l))) := by
  have hday : lookupD
      (update_provider_token_stats provLimits meta now).usage.by_day
      now.dayKey = lookupD meta.usage.by_day now.dayKey + 1 := by
    show lookupD (pruneOldKeys (setKey meta.usage.by_day now.dayKey
      (lookupD meta.usage.by_day now.dayKey + 1)) 150 120) now.dayKey = _
    rw [lookupD_pruneOldKeys _ 150 120 now.dayKey (by omega)
      (setKey_keys_nodup _ _ _ hdn)
      (setKey_keys_bound _ _ _ _ (le_refl _) hdb)
      (setKey_key_mem _ _ _)]
    exact lookupD_setKey_self _ _ _
  have hmonth : lookupD
      (update_provider_token_stats provLimits meta now).usage.by_month
      now.monthKey = lookupD meta.usage.by_month now.monthKey + 1 := by
    show lookupD (pruneOldKeys (setKey meta.usage.by_month now.monthKey
      (lookupD meta.usage.by_month now.monthKey + 1)) 30 24) now.monthKey = _
    rw [lookupD_pruneOldKeys _ 30 24 now.monthKey (by omega)
      (setKey_keys_nodup _ _ _ hmn)
      (setKey_keys_bound _ _ _ _ (le_refl _) hmb)
      (setKey_key_mem _ _ _)]
    exact lookupD_setKey_self _ _ _
  refine ⟨rfl, hday, hmonth, ?_, ?_, ?_, ?_, ?_, ?_, ?_, ?_⟩
  · intro h
    show some (_bump_rolling_window meta.usage.per_minute now.t 60) = _
    rw [h]
    rfl
  · intro st c h
    constructor
    · intro hge
      show some (_bump_rolling_window meta.usage.per_minute now.t 60) = _
      rw [h]
      simp [_bump_rolling_window, hge]
    · intro hlt
      show some (_bump_rolling_window meta.usage.per_minute now.t 60) = _
      rw [h]
      simp [_bump_rolling_window]
      omega
  · intro h
    show some (_bump_rolling_window meta.usage.per_hour now.t 3600) = _
    rw [h]
    rfl
  · intro st c h
    constructor
    · intro hge
      show some (_bump_rolling_window meta.usage.per_hour now.t 3600) = _
      rw [h]
      simp [_bump_rolling_window, hge]
    · intro hlt
      show some (_bump_rolling_window meta.usage.per_hour now.t 3600) = _
      rw [h]
      simp [_bump_rolling_window]
      omega
  · intro l h
    have hne : (mergeLimits meta.limits provLimits).isEmpty = false := by
      simp [mergeLimits, Limits.isEmpty, h]
    show (if (mergeLimits meta.limits provLimits).isEmpty then meta.exceeded
      else _).per_minute = _
    rw [hne]
    simp [mergeLimits, h]
  · intro l h
    have hne : (mergeLimits meta.limits provLimits).isEmpty = false := by
      simp [mergeLimits, Limits.isEmpty, h]
    show (if (mergeLimits meta.limits provLimits).isEmpty then meta.exceeded
      else _).per_hour = _
    rw [hne]
    simp [mergeLimits, h]
  · intro l h
    have hne : (mergeLimits meta.limits provLimits).isEmpty = false := by
      simp [mergeLimits, Limits.isEmpty, h]
    show (if (mergeLimits meta.limits provLimits).isEmpty then meta.exceeded
      else _).per_day = _
    rw [hne]
    simp only [mergeLimits, h]
    simp [lookupD_setKey_self]
  · intro l h
    have hne : (mergeLimits meta.limits provLimits).isEmpty = false := by
      simp [mergeLimits, Limits.isEmpty, h]
    show (if (mergeLimits meta.limits provLimits).isEmpty then meta.exceeded
      else _).per_month = _
    rw [hne]
    simp only [mergeLimits, h]
    simp [lookupD_setKey_self]

/-- Witness for C6: a concrete stats document (total 5, by_day 3 for today's
key 10, by_month 7 for this month's key 2, per_hour window of count 4
started 60 s ago) and provider limits per_hour 100 / per_day 10: the update
bumps by_day[today] from 3 to 4, increments the fresh per_hour window to 5,
and records exceeded per_day = (4 >= 10) = false. -/
theorem C6_update_provider_token_stats_spec_witness :
    (∀ x ∈ (([(10, 3)] : List (Nat × Int)).map Prod.fst), x ≤ 10) ∧
    lookupD (update_provider_token_stats ⟨none, some 100, some 10, none⟩
      ⟨⟨5, [(10, 3)], [(2, 7)], none, some ⟨some 100, 4⟩⟩,
        ⟨none, none, none, none⟩, ⟨none, none, none, none⟩⟩
      ⟨160, 10, 2⟩).usage.by_day 10 = lookupD [(10, 3)] 10 + 1 ∧
    (update_provider_token_stats ⟨none, some 100, some 10, none⟩
      ⟨⟨5, [(10, 3)], [(2, 7)], none, some ⟨some 100, 4⟩⟩,
        ⟨none, none, none, none⟩, ⟨none, none, none, none⟩⟩
      ⟨160, 10, 2⟩).usage.per_hour = some ⟨some 100, 4 + 1⟩ ∧
    (update_provider_token_stats ⟨none, some 100, some 10, none⟩
      ⟨⟨5, [(10, 3)], [(2, 7)], none, some ⟨some 100, 4⟩⟩,
        ⟨none, none, none, none⟩, ⟨none, none, none, none⟩⟩
      ⟨160, 10, 2⟩).exceeded.per_day =
      some (decide (lookupD [(10, 3)] 10 + 1 ≥ 10)) :=
  ⟨by decide,
   (C6_update_provider_token_stats_spec ⟨none, some 100, some 10, none⟩
      ⟨⟨5, [(10, 3)], [(2, 7)], none, some ⟨some 100, 4⟩⟩,
        ⟨none, none, none, none⟩, ⟨none, none, none, none⟩⟩
      ⟨160, 10, 2⟩ (by decide) (by decide) (by decide) (by decide)).2.1,
   ((C6_update_provider_token_stats_spec ⟨none, some 100, some 10, none⟩
      ⟨⟨5, [(10, 3)], [(2, 7)], none, some ⟨some 100, 4⟩⟩,
        ⟨none, none, none, none⟩, ⟨none, none, none, none⟩⟩
      ⟨160, 10, 2⟩ (by decide) (by decide) (by decide)
      (by decide)).2.2.2.2.2.2.1 100 4 rfl).2 (by decide),
   (C6_update_provider_token_stats_spec ⟨none, some 100, some 10, none⟩
      ⟨⟨5, [(10, 3)], [(2, 7)], none, some ⟨some 100, 4⟩⟩,
        ⟨none, none, none, none⟩, ⟨none, none, none, none⟩⟩
      ⟨160, 10, 2⟩ (by decide) (by decide) (by decide)
      (by decide)).2.2.2.2.2.2.2.2.2.1 10 rfl⟩

/- ===================================================================
   DataNormalizer: src/weathers/lib/data_normalizer.py,
   and the parameter catalog src/weathers/lib/param_catalog.py
   =================================================================== -/

/-- A JSON scalar of the payload.  Provider payload values are modelled as
numbers or null; timestamps are carried as epoch-second numbers (the
adapter's unixtime format).  ISO datetime strings are outside the value
model; this does not matter below because the save step's span computation
fails on normalized rows by key name alone, before ever parsing a value. -/
inductive Val where
  | num : Int → Val
  | null : Val
deriving DecidableEq

/-- One normalized (or raw) record: a dict in insertion order. -/
abbrev Row := List (String × Val)

/-- `payload.get(key)` on a row. -/
def rowGet (r : Row) (k : String) : Option Val :=
  (r.find? (fun p => p.1 == k)).map (fun p => p.2)

/-- One granularity section of an Open-Meteo payload: parallel arrays keyed
by provider parameter name (plus "time"). -/
abbrev Block := List (String × List Val)

/-- `block.get(key)` on a section. -/
def blockGet (b : Block) (k : String) : Option (List Val) :=
  (b.find? (fun p => p.1 == k)).map (fun p => p.2)

/-- `OPEN_METEO_PARAM_CATALOG` (param_catalog.py): the canonical name to
Open-Meteo provider name column.  The unit / desc_ru display metadata is
not consumed by normalization and is omitted. -/
def OPEN_METEO_PARAM_CATALOG : List (String × String) := [
    ("date_time", "time"),
    ("temperature", "temperature_2m"),
    ("relative_humidity", "relative_humidity_2m"),
    ("dew_point", "dew_point_2m"),
    ("apparent_temperature", "apparent_temperature"),
    ("pressure_msl", "pressure_msl"),
    ("surface_pressure", "surface_pressure"),
    ("cloud_cover", "cloud_cover"),
    ("cloud_cover_low", "cloud_cover_low"),
    ("cloud_cover_mid", "cloud_cover_mid"),
    ("cloud_cover_high", "cloud_cover_high"),
    ("wind_speed_10m", "wind_speed_10m"),
    ("wind_speed_80m", "wind_speed_80m"),
    ("wind_speed_120m", "wind_speed_120m"),
    ("wind_speed_180m", "wind_speed_180m"),
    ("wind_direction_10m", "wind_direction_10m"),
    ("wind_direction_80m", "wind_direction_80m"),
    ("wind_direction_120m", "wind_direction_120m"),
    ("wind_direction_180m", "wind_direction_180m"),
    ("wind_gusts_10m", "wind_gusts_10m"),
    ("shortwave_radiation", "shortwave_radiation"),
    ("direct_radiation", "direct_radiation"),
    ("direct_normal_irradiance", "direct_normal_irradiance"),
    ("diffuse_radiation", "diffuse_radiation"),
    ("global_tilted_irradiance", "global_tilted_irradiance"),
    ("global_tilted_irradiance_instant", "global_tilted_irradiance_instant"),
    ("sunshine_duration", "sunshine_duration"),
    ("precipitation", "precipitation"),
    ("rain", "rain"),
    ("showers", "showers"),
    ("snowfall", "snowfall"),
    ("precipitation_probability", "precipitation_probability"),
    ("snow_depth", "snow_depth"),
    ("snowfall_height", "snowfall_height"),
    ("freezing_level_height", "freezing_level_height"),
    ("visibility", "visibility"),
    ("weather_code", "weather_code"),
    ("vapour_pressure_deficit", "vapour_pressure_deficit"),
    ("cape", "cape"),
    ("evapotranspiration", "evapotranspiration"),
    ("et0_fao_evapotranspiration", "et0_fao_evapotranspiration"),
    ("lightning_potential", "lightning_potential"),
    ("is_day", "is_day"),
    ("soil_temperature_0cm", "soil_temperature_0cm"),
    ("soil_temperature_6cm", "soil_temperature_6cm"),
    ("soil_temperature_18cm", "soil_temperature_18cm"),
    ("soil_temperature_54cm", "soil_temperature_54cm"),
    ("soil_moisture_0_to_1cm", "soil_moisture_0_to_1cm"),
    ("soil_moisture_1_to_3cm", "soil_moisture_1_to_3cm"),
    ("soil_moisture_3_to_9cm", "soil_moisture_3_to_9cm"),
    ("soil_moisture_9_to_27cm", "soil_moisture_9_to_27cm"),
    ("soil_moisture_27_to_81cm", "soil_moisture_27_to_81cm"),
    ("temperature_max", "temperature_2m_max"),
    ("temperature_mean", "temperature_2m_mean"),
    ("temperature_min", "temperature_2m_min"),
    ("apparent_temperature_max", "apparent_temperature_max"),
    ("apparent_temperature_mean", "apparent_temperature_mean"),
    ("apparent_temperature_min", "apparent_temperature_min"),
    ("precipitation_sum", "precipitation_sum"),
    ("rain_sum", "rain_sum"),
    ("showers_sum", "showers_sum"),
    ("snowfall_sum", "snowfall_sum"),
    ("precipitation_hours", "precipitation_hours"),
    ("precipitation_probability_max", "precipitation_probability_max"),
    ("precipitation_probability_mean", "precipitation_probability_mean"),
    ("precipitation_probability_min", "precipitation_probability_min"),
    ("sunrise", "sunrise"),
    ("sunset", "sunset"),
    ("daylight_duration", "daylight_duration"),
    ("uv_index_max", "uv_index_max"),
    ("uv_index_clear_sky_max", "uv_index_clear_sky_max"),
    ("wind_speed_10m_max", "wind_speed_10m_max"),
    ("wind_gusts_10m_max", "wind_gusts_10m_max"),
    ("wind_direction_10m_dominant", "wind_direction_10m_dominant"),
    ("shortwave_radiation_sum", "shortwave_radiation_sum"),
    ("et0_fao_evapotranspiration_sum", "et0_fao_evapotranspiration")]

/-- `DataNormalizer.normalize` for provider "open_meteo"
(data_normalizer.py lines 36-57): walk the catalog in order; for each
canonical name whose provider source key is present in the payload, emit
the value under the canonical name; everything else is dropped.  No unit
converters are registered by the engine (the default converter map is
empty), so values pass through unchanged; the unknown-provider ValueError
branch is outside the model because every call fixes the provider
"open_meteo", which the catalog contains. -/
def DataNormalizer_normalize (mapping : List (String × String))
    (payload : Row) : Row :=
  mapping.filterMap (fun cs =>
    match rowGet payload cs.2 with
    | some v => some (cs.1, v)
    | none => none)

/-- The raw per-timestamp row assembled by `open_meteo_standardize`
(data_normalizer.py lines 82-87): the "time" entry plus, for every other
key of the section, the value at this index when the parameter array is
long enough (`if idx < len(values)`), omitted otherwise. -/
def rawRow (block : Block) (paramNames : List String) (idx : Nat) (ts : Val) :
    Row :=
  ("time", ts) :: paramNames.filterMap (fun name =>
    match ((blockGet block name).getD [])[idx]? with
    | some v => some (name, v)
    | none => none)

/-- One section of `open_meteo_standardize`: `none` models the ValueError
raised when the (present, non-empty) section block has no "time" array. -/
def standardizeSection (mapping : List (String × String)) (block : Block) :
    Option (List Row) :=
  match blockGet block "time" with
  | none => none
  | some times =>
    some (times.enum.map (fun it =>
      DataNormalizer_normalize mapping
        (rawRow block ((block.map Prod.fst).filter (fun k => k ≠ "time"))
          it.1 it.2)))

/-- `DataNormalizer.open_meteo_standardize` (data_normalizer.py lines
59-91): walk the requested sections; a section absent from the payload (or
with a falsy empty block) is skipped; a present non-empty block without a
"time" array is a hard error (`none`); otherwise the section's parallel
arrays are transposed into one normalized row per timestamp. -/
def open_meteo_standardize (mapping : List (String × String))
    (payload : List (String × Block)) (sections : List String) :
    Option (List (String × List Row)) :=
  match sections with
  | [] => some []
  | sec :: rest =>
    match (payload.find? (fun p => p.1 == sec)).map (fun p => p.2) with
    | none => open_meteo_standardize mapping payload rest
    | some block =>
      if block.isEmpty then open_meteo_standardize mapping payload rest
      else
        match standardizeSection mapping block with
        | none => none
        | some rows =>
          (open_meteo_standardize mapping payload rest).map
            (fun acc => (sec, rows) :: acc)

example : open_meteo_standardize OPEN_METEO_PARAM_CATALOG
    [("hourly", [("time", [.num 100]), ("temperature_2m", [.num 25])])]
    ["hourly"] =
    some [("hourly", [[("date_time", .num 100),
      ("temperature", .num 25)]])] := by decide

example : open_meteo_standardize OPEN_METEO_PARAM_CATALOG
    [("hourly", [("temperature_2m", [.num 25])])] ["hourly"] = none := by
  decide

example : open_meteo_standardize OPEN_METEO_PARAM_CATALOG
    [("daily", [("time", [.num 1])])] ["hourly"] = some [] := by decide

theorem rowGet_cons_eq (p : String × Val) (rest : Row) (k : String)
    (h : (p.1 == k) = true) : rowGet (p :: rest) k = some p.2 := by
  unfold rowGet
  rw [List.find?_cons]
  simp [h]

theorem rowGet_cons_ne (p : String × Val) (rest : Row) (k : String)
    (h : (p.1 == k) = false) : rowGet (p :: rest) k = rowGet rest k := by
  unfold rowGet
  rw [List.find?_cons]
  simp [h]

theorem rowGet_filter (raw : Row) (pred : String × Val → Bool) (k : String)
    (h : ∀ p ∈ raw, p.1 = k → pred p = true) :
    rowGet (raw.filter pred) k = rowGet raw k := by
  induction raw with
  | nil => rfl
  | cons p rest ih =>
    by_cases hpk : (p.1 == k) = true
    · have hpred : pred p = true :=
        h p (List.mem_cons_self _ _) (eq_of_beq hpk)
      rw [List.filter_cons_of_pos hpred]
      unfold rowGet
      rw [List.find?_cons, List.find?_cons]
      simp [hpk]
    · rw [Bool.not_eq_true] at hpk
      have ih' := ih (fun q hq hqk => h q (List.mem_cons_of_mem _ hq) hqk)
      by_cases hpred : pred p = true
      · rw [List.filter_cons_of_pos hpred]
        unfold rowGet at ih' ⊢
        rw [List.find?_cons, List.find?_cons]
        simpa [hpk] using ih'
      · rw [List.filter_cons_of_neg (by simpa using hpred)]
        unfold rowGet at ih' ⊢
        rw [List.find?_cons]
        simpa [hpk] using ih'

/-- Normalization only reads the payload through the provider source keys of
the mapping. -/
theorem DataNormalizer_normalize_congr (mapping : List (String × String))
    (raw1 raw2 : Row)
    (h : ∀ src ∈ mapping.map Prod.snd, rowGet raw1 src = rowGet raw2 src) :
    DataNormalizer_normalize mapping raw1 =
      DataNormalizer_normalize mapping raw2 := by
  induction mapping with
  | nil => rfl
  | cons cs rest ih =>
    unfold DataNormalizer_normalize
    rw [List.filterMap_cons, List.filterMap_cons]
    rw [h cs.2 (List.mem_map_of_mem Prod.snd (List.mem_cons_self _ _))]
    have ih' := ih (fun src hsrc =>
      h src (by
        rw [List.map_cons]
        exact List.mem_cons_of_mem _ hsrc))
    unfold DataNormalizer_normalize at ih'
    rw [ih']

/-- A canonical key outside the mapping never appears in the output. -/
theorem DataNormalizer_normalize_rowGet_none (mapping : List (String × String))
    (raw : Row) (c : String) (hc : ∀ p ∈ mapping, p.1 ≠ c) :
    rowGet (DataNormalizer_normalize mapping raw) c = none := by
  induction mapping with
  | nil => rfl
  | cons cs rest ih =>
    unfold DataNormalizer_normalize
    rw [List.filterMap_cons]
    have hcs : (cs.1 == c) = false := by
      simpa using hc cs (List.mem_cons_self _ _)
    have ih' := ih (fun q hq => hc q (List.mem_cons_of_mem _ hq))
    cases hv : rowGet raw cs.2 with
    | none =>
      unfold DataNormalizer_normalize at ih'
      exact ih'
    | some v =>
      unfold rowGet
      rw [List.find?_cons]
      simp only [hcs]
      unfold DataNormalizer_normalize rowGet at ih'
      exact ih'

/-- First-match lookup semantics of normalization: under a duplicate-free
canonical column, the normalized value at canonical name `c` is the payload
value at the provider name the catalog maps `c` to. -/
theorem DataNormalizer_normalize_rowGet (mapping : List (String × String))
    (hnd : (mapping.map Prod.fst).Nodup) (raw : Row) (c : String) :
    rowGet (DataNormalizer_normalize mapping raw) c =
      (((mapping.find? (fun p => p.1 == c)).map (fun p => p.2)).bind
        (fun src => rowGet raw src)) := by
  induction mapping with
  | nil => rfl
  | cons cs rest ih =>
    rw [List.map_cons, List.nodup_cons] at hnd
    obtain ⟨hni, hnd'⟩ := hnd
    unfold DataNormalizer_normalize
    rw [List.filterMap_cons, List.find?_cons]
    by_cases hcs : (cs.1 == c) = true
    · simp only [hcs]
      cases hv : rowGet raw cs.2 with
      | some v =>
        rw [rowGet_cons_eq (cs.1, v) _ c (by simpa using hcs)]
        simp only [Option.map_some', Option.some_bind]
        exact hv.symm
      | none =>
        simp only [Option.map_some', Option.some_bind]
        have hrest : rowGet (DataNormalizer_normalize rest raw) c = none := by
          refine DataNormalizer_normalize_rowGet_none rest raw c ?_
          intro q hq
          have hceq := eq_of_beq hcs
          intro hqc
          rw [← hceq] at hqc
          exact hni (hqc ▸ List.mem_map_of_mem Prod.fst hq)
        rw [hv]
        exact hrest
    · simp only [hcs]
      cases hv : rowGet raw cs.2 with
      | some v =>
        rw [rowGet_cons_ne (cs.1, v) _ c (by simpa using hcs)]
        exact ih hnd'
      | none =>
        exact ih hnd'

/-- A requested section that is present, non-empty and lacks a "time" array
makes the whole standardization fail. -/
theorem open_meteo_standardize_time_error (mapping : List (String × String))
    (payload : List (String × Block)) :
    ∀ (sections : List String) (sec : String) (block : Block),
      sec ∈ sections →
      (payload.find? (fun p => p.1 == sec)).map (fun p => p.2) = some block →
      block.isEmpty = false → blockGet block "time" = none →
      open_meteo_standardize mapping payload sections = none := by
  intro sections
  induction sections with
  | nil =>
    intro sec block h
    simp at h
  | cons s rest ih =>
    intro sec block hmem hfind hne htime
    rcases List.mem_cons.mp hmem with heq | hmem'
    · subst heq
      unfold open_meteo_standardize
      rw [hfind]
      simp only [hne, Bool.false_eq_true, if_false]
      unfold standardizeSection
      rw [htime]
    · have hrest := ih sec block hmem' hfind hne htime
      unfold open_meteo_standardize
      cases hf : (payload.find? (fun p => p.1 == s)).map (fun p => p.2) with
      | none => exact hrest
      | some b =>
        by_cases hbe : b.isEmpty = true
        · simp only [hbe, if_true]
          exact hrest
        · simp only [hbe, if_false]
          cases hsb : standardizeSection mapping b with
          | none => rfl
          | some rows =>
            rw [hrest]
            rfl

/-- C8: normalization raises a hard error whenever a requested section's
(present, non-empty) payload lacks a time array; a successful section yields
one row per timestamp; rows are keyed by canonical parameter names, the
value at canonical name c being the payload value at the provider name the
catalog maps c to; and payload entries whose provider name is absent from
the catalog's provider column are dropped (filtering them away does not
change the result). -/
theorem C8_normalize_time_error_and_dropping
    (mapping : List (String × String)) (payload : List (String × Block))
    (sections : List String) (sec : String) (block : Block) :
    (sec ∈ sections →
      (payload.find? (fun p => p.1 == sec)).map (fun p => p.2) = some block →
      block.isEmpty = false → blockGet block "time" = none →
      open_meteo_standardize mapping payload sections = none) ∧
    (∀ times, blockGet block "time" = some times →
      ∃ rows, standardizeSection mapping block = some rows ∧
        rows.length = times.length) ∧
    ((mapping.map Prod.fst).Nodup → ∀ (raw : Row) (c : String),
      rowGet (DataNormalizer_normalize mapping raw) c =
        (((mapping.find? (fun p => p.1 == c)).map (fun p => p.2)).bind
          (fun src => rowGet raw src))) ∧
    (∀ raw : Row, DataNormalizer_normalize mapping raw =
      DataNormalizer_normalize mapping
        (raw.filter (fun p => (mapping.map Prod.snd).contains p.1))) := by
  refine ⟨?_, ?_, ?_, ?_⟩
  · intro h1 h2 h3 h4
    exact open_meteo_standardize_time_error mapping payload sections sec block
      h1 h2 h3 h4
  · intro times htime
    refine ⟨times.enum.map (fun it =>
      DataNormalizer_normalize mapping
        (rawRow block ((block.map Prod.fst).filter (fun k => k ≠ "time"))
          it.1 it.2)), ?_, ?_⟩
    · unfold standardizeSection
      rw [htime]
    · rw [List.length_map, List.enum_length]
  · intro hnd raw c
    exact DataNormalizer_normalize_rowGet mapping hnd raw c
  · intro raw
    refine DataNormalizer_normalize_congr mapping raw _ ?_
    intro src hsrc
    refine (rowGet_filter raw _ src ?_).symm
    intro p hp hpk
    have : p.1 ∈ mapping.map Prod.snd := hpk ▸ hsrc
    exact List.elem_iff.mpr this

/-- Witness for C8: over the real catalog, a non-empty hourly section
without a time array is a hard error; a well-formed section normalizes
with provider names translated to canonical ones ("temperature_2m" to
"temperature") and a provider name absent from the catalog
("bogus_param") dropped. -/
theorem C8_normalize_time_error_and_dropping_witness :
    (([("hourly", [("temperature_2m", [Val.num 25])])] :
        List (String × Block)).find?
        (fun p => p.1 == "hourly")).map (fun p => p.2) =
      some [("temperature_2m", [Val.num 25])] ∧
    open_meteo_standardize OPEN_METEO_PARAM_CATALOG
      [("hourly", [("temperature_2m", [Val.num 25])])] ["hourly"] = none ∧
    rowGet (DataNormalizer_normalize OPEN_METEO_PARAM_CATALOG
      [("time", Val.num 100), ("temperature_2m", Val.num 25),
        ("bogus_param", Val.num 7)]) "temperature" = some (Val.num 25) ∧
    DataNormalizer_normalize OPEN_METEO_PARAM_CATALOG
      [("time", Val.num 100), ("temperature_2m", Val.num 25),
        ("bogus_param", Val.num 7)] =
      DataNormalizer_normalize OPEN_METEO_PARAM_CATALOG
        [("time", Val.num 100), ("temperature_2m", Val.num 25)] :=
  ⟨by decide,
   (C8_normalize_time_error_and_dropping OPEN_METEO_PARAM_CATALOG
      [("hourly", [("temperature_2m", [Val.num 25])])] ["hourly"] "hourly"
      [("temperature_2m", [Val.num 25])]).1
      (List.mem_singleton.mpr rfl) (by decide) (by decide) (by decide),
   ((C8_normalize_time_error_and_dropping OPEN_METEO_PARAM_CATALOG
      [] [] "" []).2.2.1 (by decide)
      [("time", Val.num 100), ("temperature_2m", Val.num 25),
        ("bogus_param", Val.num 7)] "temperature").trans (by decide),
   ((C8_normalize_time_error_and_dropping OPEN_METEO_PARAM_CATALOG
      [] [] "" []).2.2.2
      [("time", Val.num 100), ("temperature_2m", Val.num 25),
        ("bogus_param", Val.num 7)]).trans (by decide)⟩

/-- When a parameter array is too short for the index, no entry for that
parameter reaches the raw row. -/
theorem rawRow_find_oob (block : Block) (idx : Nat) (name : String)
    (values : List Val) (hbg : blockGet block name = some values)
    (hlen : values.length ≤ idx) :
    ∀ (names : List String),
      (names.filterMap (fun n =>
        match ((blockGet block n).getD [])[idx]? with
        | some v => some (n, v)
        | none => none)).find? (fun p => p.1 == name) = none := by
  intro names
  induction names with
  | nil => rfl
  | cons n rest ih =>
    rw [List.filterMap_cons]
    by_cases hn : (n == name) = true
    · have heq : n = name := eq_of_beq hn
      subst heq
      rw [hbg]
      have hnone : (values[idx]?) = none := List.getElem?_eq_none hlen
      simp only [Option.getD_some, hnone]
      exact ih
    · cases hv : ((blockGet block n).getD [])[idx]? with
      | none =>
        simp only [hv]
        exact ih
      | some v =>
        simp only [hv]
        rw [List.find?_cons]
        simp only [hn]
        exact ih

/-- When the parameter array is long enough, the raw row carries the value
at this index for that parameter. -/
theorem rawRow_find_inb (block : Block) (idx : Nat) (name : String)
    (values : List Val) (v : Val) (hbg : blockGet block name = some values)
    (hv : values[idx]? = some v) :
    ∀ (names : List String), name ∈ names →
      (names.filterMap (fun n =>
        match ((blockGet block n).getD [])[idx]? with
        | some w => some (n, w)
        | none => none)).find? (fun p => p.1 == name) = some (name, v) := by
  intro names
  induction names with
  | nil =>
    intro h
    simp at h
  | cons n rest ih =>
    intro hmem
    rw [List.filterMap_cons]
    by_cases hn : (n == name) = true
    · have heq : n = name := eq_of_beq hn
      subst heq
      rw [hbg]
      simp only [Option.getD_some, hv]
      rw [List.find?_cons]
      simp
    · have hmem' : name ∈ rest := by
        rcases List.mem_cons.mp hmem with heq | h
        · exact absurd (by simp [heq]) hn
        · exact h
      cases hw : ((blockGet block n).getD [])[idx]? with
      | none =>
        simp only [hw]
        exact ih hmem'
      | some w =>
        simp only [hw]
        rw [List.find?_cons]
        simp only [hn]
        exact ih hmem'

/-- C10: normalization is total on ragged payloads.  With a time array
present the section standardizes successfully for every payload; at every
timestamp index at or beyond a parameter array's length that parameter is
simply omitted from the raw row (and hence from the normalized row), while
in-bounds indices contribute their value. -/
theorem C10_standardize_total_on_ragged (mapping : List (String × String))
    (block : Block) (times : List Val)
    (htime : blockGet block "time" = some times) :
    (∃ rows, standardizeSection mapping block = some rows) ∧
    (∀ name values idx ts, (name == "time") = false →
      blockGet block name = some values → values.length ≤ idx →
      rowGet (rawRow block ((block.map Prod.fst).filter (fun k => k ≠ "time"))
        idx ts) name = none) ∧
    (∀ name values idx ts v, (name == "time") = false →
      blockGet block name = some values → values[idx]? = some v →
      rowGet (rawRow block ((block.map Prod.fst).filter (fun k => k ≠ "time"))
        idx ts) name = some v) := by
  refine ⟨?_, ?_, ?_⟩
  · refine ⟨times.enum.map (fun it =>
      DataNormalizer_normalize mapping
        (rawRow block ((block.map Prod.fst).filter (fun k => k ≠ "time"))
          it.1 it.2)), ?_⟩
    unfold standardizeSection
    rw [htime]
  · intro name values idx ts hne hbg hlen
    have hne' : ("time" == name) = false := by
      simp only [beq_eq_false_iff_ne] at hne ⊢
      exact fun h => hne h.symm
    unfold rawRow rowGet
    rw [List.find?_cons]
    simp only [hne']
    rw [rawRow_find_oob block idx name values hbg hlen]
    rfl
  · intro name values idx ts v hne hbg hv
    have hmem : name ∈ (block.map Prod.fst).filter (fun k => k ≠ "time") := by
      have hfind : ∃ p, block.find? (fun p => p.1 == name) = some p ∧
          p.2 = values := by
        unfold blockGet at hbg
        cases hf : block.find? (fun p => p.1 == name) with
        | none => rw [hf] at hbg; cases hbg
        | some p =>
          rw [hf] at hbg
          exact ⟨p, rfl, by simpa using hbg⟩
      obtain ⟨p, hf, -⟩ := hfind
      have hp1 := List.find?_some hf
      simp only [beq_iff_eq] at hp1
      have hpm : p ∈ block := List.mem_of_find?_eq_some hf
      rw [List.mem_filter]
      constructor
      · rw [← hp1]
        exact List.mem_map_of_mem Prod.fst hpm
      · simp only [decide_eq_true_eq]
        intro hcontra
        rw [hcontra] at hne
        simp at hne
    have hne' : ("time" == name) = false := by
      simp only [beq_eq_false_iff_ne] at hne ⊢
      exact fun h => hne h.symm
    unfold rawRow rowGet
    rw [List.find?_cons]
    simp only [hne']
    rw [rawRow_find_inb block idx name values v hbg hv _ hmem]
    rfl

/-- Witness for C10: a ragged hourly section (two timestamps, one
temperature value) standardizes without error; at index 1 the short
parameter is omitted while index 0 carries its value. -/
theorem C10_standardize_total_on_ragged_witness :
    blockGet [("time", [Val.num 0, Val.num 1]),
      ("temperature_2m", [Val.num 20])] "time" =
      some [Val.num 0, Val.num 1] ∧
    rowGet (rawRow [("time", [Val.num 0, Val.num 1]),
      ("temperature_2m", [Val.num 20])]
      (((([("time", [Val.num 0, Val.num 1]),
        ("temperature_2m", [Val.num 20])] : Block).map Prod.fst)).filter
        (fun k => k ≠ "time")) 1 (Val.num 1)) "temperature_2m" = none ∧
    rowGet (rawRow [("time", [Val.num 0, Val.num 1]),
      ("temperature_2m", [Val.num 20])]
      (((([("time", [Val.num 0, Val.num 1]),
        ("temperature_2m", [Val.num 20])] : Block).map Prod.fst)).filter
        (fun k => k ≠ "time")) 0 (Val.num 0)) "temperature_2m" =
      some (Val.num 20) ∧
    open_meteo_standardize OPEN_METEO_PARAM_CATALOG
      [("hourly", [("time", [Val.num 0, Val.num 1]),
        ("temperature_2m", [Val.num 20])])] ["hourly"] =
      some [("hourly", [[("date_time", Val.num 0),
        ("temperature", Val.num 20)], [("date_time", Val.num 1)]])] :=
  ⟨by decide,
   (C10_standardize_total_on_ragged OPEN_METEO_PARAM_CATALOG
      [("time", [Val.num 0, Val.num 1]), ("temperature_2m", [Val.num 20])]
      [Val.num 0, Val.num 1] (by decide)).2.1 "temperature_2m" [Val.num 20]
      1 (Val.num 1) (by decide) (by decide) (by decide),
   (C10_standardize_total_on_ragged OPEN_METEO_PARAM_CATALOG
      [("time", [Val.num 0, Val.num 1]), ("temperature_2m", [Val.num 20])]
      [Val.num 0, Val.num 1] (by decide)).2.2 "temperature_2m" [Val.num 20]
      0 (Val.num 0) (Val.num 20) (by decide) (by decide) (by decide),
   by decide⟩

/- ===================================================================
   IngestionPipeline:
   src/weathers/weather_processing/data_processing_engine.py
   =================================================================== -/

/-- `WeatherData.DataType` (models.py): forecast/history times three
granularities. -/
inductive DataType where
  | fct15 | fctHr | fctDay | hist15 | histHr | histDay
deriving DecidableEq

/-- A fetch plan (data_processing_engine.py, FetchPlan): the section name
and the data_type tags.  The provider parameter lists feed only the outgoing
request URL (an external collaborator) and are not modelled. -/
structure FetchPlan where
  granularity : String
  data_type_forecast : DataType
  data_type_history : DataType
deriving DecidableEq

/-- The errors `DataProcessEngine.__init__` can raise: badMode and
historyDatesMissing model the two ValueError branches, unknownSection the
ValueError of `_build_default_plan`, unsupportedProvider the
NotImplementedError of the provider check. -/
inductive InitError where
  | badMode
  | historyDatesMissing
  | unknownSection (sec : String)
  | unsupportedProvider (code : String)
deriving DecidableEq

/-- `_build_default_plan` (data_processing_engine.py lines 74-106). -/
def _build_default_plan : List String → Except InitError (List FetchPlan)
  | [] => Except.ok []
  | sec :: rest =>
    if sec = "hourly" then
      (_build_default_plan rest).map
        (fun ps => ⟨"hourly", DataType.fctHr, DataType.histHr⟩ :: ps)
    else if sec = "daily" then
      (_build_default_plan rest).map
        (fun ps => ⟨"daily", DataType.fctDay, DataType.histDay⟩ :: ps)
    else if sec = "minutely_15" then
      (_build_default_plan rest).map
        (fun ps => ⟨"minutely_15", DataType.fct15, DataType.hist15⟩ :: ps)
    else Except.error (InitError.unknownSection sec)

/-- The validated state of a constructed engine. -/
structure Engine where
  mode : String
  date_from : Option Int
  date_to : Option Int
  overwrite : Bool
  plans : List FetchPlan
  providerCode : String
deriving DecidableEq

/-- `DataProcessEngine.__init__` (data_processing_engine.py lines 115-146):
validation only; the embedding touches no store and performs no fetch (the
Python constructor likewise only validates and assigns before the provider
check).  Order of checks is the source order: mode, history dates, plan
construction, provider code. -/
def DataProcessEngine_init (mode : String) (date_from date_to : Option Int)
    (sections : List String) (providerCode : String) (overwrite : Bool) :
    Except InitError Engine :=
  if ¬ (mode = "forecast" ∨ mode = "history") then
    Except.error InitError.badMode
  else if mode = "history" ∧ (date_from.isNone ∨ date_to.isNone) then
    Except.error InitError.historyDatesMissing
  else
    match _build_default_plan sections with
    | Except.error e => Except.error e
    | Except.ok plans =>
      if providerCode ≠ "open_meteo" then
        Except.error (InitError.unsupportedProvider providerCode)
      else Except.ok ⟨mode, date_from, date_to, overwrite, plans, providerCode⟩

/-- C9: the engine constructor enforces its preconditions before anything
else: a mode other than "forecast"/"history" is rejected with the
mode ValueError for every argument combination, and mode "history" with
either date missing is rejected with the dates ValueError; the model is a
pure function of its arguments, so neither rejection touches the store. -/
theorem C9_engine_init_validation (mode : String)
    (date_from date_to : Option Int) (sections : List String)
    (providerCode : String) (overwrite : Bool) :
    (mode ≠ "forecast" → mode ≠ "history" →
      DataProcessEngine_init mode date_from date_to sections providerCode
        overwrite = Except.error InitError.badMode) ∧
    ((date_from = none ∨ date_to = none) →
      DataProcessEngine_init "history" date_from date_to sections providerCode
        overwrite = Except.error InitError.historyDatesMissing) := by
  constructor
  · intro h1 h2
    unfold DataProcessEngine_init
    rw [if_pos]
    rintro (h | h)
    · exact h1 h
    · exact h2 h
  · intro h
    unfold DataProcessEngine_init
    rw [if_neg (by simp), if_pos]
    refine ⟨rfl, ?_⟩
    rcases h with h | h
    · exact Or.inl (by simp [h])
    · exact Or.inr (by simp [h])

/-- Witness for C9: mode "backfill" is rejected as a bad mode, and history
mode without a start date is rejected as missing dates, both at concrete
arguments. -/
theorem C9_engine_init_validation_witness :
    DataProcessEngine_init "backfill" (some 0) (some 1) ["hourly"]
      "open_meteo" true = Except.error InitError.badMode ∧
    DataProcessEngine_init "history" none (some 1) ["hourly"] "open_meteo"
      true = Except.error InitError.historyDatesMissing :=
  ⟨(C9_engine_init_validation "backfill" (some 0) (some 1) ["hourly"]
      "open_meteo" true).1 (by decide) (by decide),
   (C9_engine_init_validation "history" none (some 1) ["hourly"] "open_meteo"
      true).2 (Or.inl rfl)⟩

/-- The numeric branch of the engine's `_parse_iso_utc`
(data_processing_engine.py lines 239-316) on the modelled value space:
integers are epoch timestamps (values of magnitude at least 10^12 are taken
as milliseconds, mirroring the source heuristic), null and missing values
parse to nothing.  The string branches fall outside the value model; the
claims below never depend on them because the span computation fails on
normalized rows by key name alone, before parsing any value. -/
def engine_parse_ts (v : Option Val) : Option Int :=
  match v with
  | some (Val.num n) =>
    if n.natAbs ≥ 1000000000000 then some (n / 1000) else some n
  | _ => none

/-- `_span` (data_processing_engine.py lines 330-338): the min/max of the
parseable values at key "time" of the given rows; `(none, none)` when no
row has one. -/
def _span (rows : List Row) : Option Int × Option Int :=
  let times := rows.filterMap (fun r => engine_parse_ts (rowGet r "time"))
  (times.min?, times.max?)

/-- One stored `WeatherData` row for the fixed point of the job
(the meteo_point foreign key, constant per engine, is omitted). -/
structure StoreRow where
  parameter : String
  timestamp_utc : Int
  value : Val
  data_type : DataType
deriving DecidableEq

/-- The range delete of `_save_narrow` (lines 203-210): drop every row of
this data_type with timestamp in `[a, b]`. -/
def deleteRange (store : List StoreRow) (dt : DataType) (a b : Int) :
    List StoreRow :=
  store.filter (fun w =>
    !(w.data_type == dt && decide (a ≤ w.timestamp_utc) &&
      decide (w.timestamp_utc ≤ b)))

/-- The object-building loop of `_save_narrow` (lines 212-228): for every
row whose "date_time" value parses, one store row per entry other than
"date_time" with a non-null value. -/
def buildObjs (rows : List Row) (dt : DataType) : List StoreRow :=
  rows.flatMap (fun r =>
    match engine_parse_ts (rowGet r "date_time") with
    | none => []
    | some ts =>
      r.filterMap (fun kv =>
        if kv.1 = "date_time" ∨ kv.2 = Val.null then none
        else some ⟨kv.1, ts, kv.2, dt⟩))

/-- `_save_narrow` (data_processing_engine.py lines 194-236) as a store
transformation: empty rows return the store unchanged with count 0;
otherwise, when overwrite is on and the computed span is non-empty, the
range is deleted, and then the built objects are bulk-inserted (the
batch chunking only splits the insert into pieces and is immaterial to the
final state and count, which is the number of built objects). -/
def _save_narrow (store : List StoreRow) (rows : List Row) (overwrite : Bool)
    (dt : DataType) : List StoreRow × Nat :=
  if rows.isEmpty then (store, 0)
  else
    let sp := _span rows
    let store1 :=
      match overwrite, sp.1, sp.2 with
      | true, some a, some b => deleteRange store dt a b
      | _, _, _ => store
    let objs := buildObjs rows dt
    (store1 ++ objs, objs.length)

/-- The transaction structure of `_save_narrow`: the source wraps the range
delete in one `transaction.atomic()` block (lines 203-210) and the bulk
insert in a second, separate `transaction.atomic()` block (lines 231-234).
Each list element is the store transformation committed by one transaction. -/
def _save_narrow_txns (rows : List Row) (overwrite : Bool) (dt : DataType) :
    List (List StoreRow → List StoreRow) :=
  if rows.isEmpty then []
  else
    let sp := _span rows
    let txn1 : List StoreRow → List StoreRow :=
      match overwrite, sp.1, sp.2 with
      | true, some a, some b => fun st => deleteRange st dt a b
      | _, _, _ => fun st => st
    let txn2 : List StoreRow → List StoreRow :=
      fun st => st ++ buildObjs rows dt
    [txn1, txn2]

/-- The store state observable after the first `k` transactions commit. -/
def execPrefix (txns : List (List StoreRow → List StoreRow)) (k : Nat)
    (store : List StoreRow) : List StoreRow :=
  (txns.take k).foldl (fun st f => f st) store

/-- The payload of the C1 failing input: one hourly timestamp with one
temperature value (timestamps in the adapter's unixtime format). -/
def c1Payload : List (String × Block) :=
  [("hourly", [("time", [Val.num 100]), ("temperature_2m", [Val.num 25])])]

/-- The normalized hourly rows of the C1 payload, as `process` hands them to
`_save_narrow`. -/
def c1Rows : List Row :=
  match open_meteo_standardize OPEN_METEO_PARAM_CATALOG c1Payload
      ["hourly"] with
  | some out => ((out.find? (fun p => p.1 == "hourly")).map
      (fun p => p.2)).getD []
  | none => []

/-- No normalized row carries a "time" key when the mapping's canonical
column avoids that name (the catalog renames "time" to "date_time"), so the
span the save step computes over normalized rows is always empty and the
overwrite delete never runs. -/
theorem normalized_span_always_empty (mapping : List (String × String))
    (hm : ∀ p ∈ mapping, p.1 ≠ "time") (raws : List Row) :
    _span (raws.map (fun r => DataNormalizer_normalize mapping r)) =
      (none, none) := by
  have htimes : List.filterMap (fun r => engine_parse_ts (rowGet r "time"))
      (raws.map (fun r => DataNormalizer_normalize mapping r)) = [] := by
    rw [List.filterMap_map]
    rw [List.filterMap_eq_nil_iff]
    intro r hr
    simp only [Function.comp_apply]
    rw [DataNormalizer_normalize_rowGet_none mapping r "time" hm]
    rfl
  unfold _span
  rw [htimes]
  rfl

/-- C1 (code bug): re-ingesting the same normalized payload with overwrite
enabled duplicates rows instead of replacing them.  `_span` looks rows up
at key "time" (line 333), but normalization keys timestamps as "date_time"
(the catalog's canonical name for the provider's "time" field) - the very
key `_save_narrow` itself reads two lines below when building objects.  So
the computed span is always `(none, none)` on normalized rows, the
overwrite delete is dead code, and the second ingestion of the concrete
payload leaves two copies: stored row count 2 after two runs vs 1 after
one, where the specification requires equality. -/
theorem C1_overwrite_span_key_bug :
    c1Rows = [[("date_time", Val.num 100), ("temperature", Val.num 25)]] ∧
    _span c1Rows = (none, none) ∧
    (_save_narrow [] c1Rows true DataType.fctHr).1.length = 1 ∧
    (_save_narrow (_save_narrow [] c1Rows true DataType.fctHr).1 c1Rows true
      DataType.fctHr).1.length = 2 := by decide

/-- The rows and prior store of the C7 counterexample: rows that do expose a
non-empty span (keys "time" and "date_time" both present and parseable) and
a store holding one prior row inside the span. -/
def c7Rows : List Row :=
  [[("date_time", Val.num 100), ("temperature_2m", Val.num 25),
    ("time", Val.num 100)]]

def c7Store : List StoreRow :=
  [⟨"temperature_2m", 100, Val.num 20, DataType.fctHr⟩]

/-- Counterexample to C7: with overwrite on and a non-empty covered span,
the state after the first of the two transactions commits is an observable
intermediate state in which the existing rows of the span are deleted and
the new rows are not yet inserted; it differs from both the initial and the
final state, refuting "the store is either fully unchanged or fully
updated". -/
theorem C7_two_transactions_counterexample :
    (_save_narrow_txns c7Rows true DataType.fctHr).length = 2 ∧
    _span c7Rows = (some 100, some 100) ∧
    execPrefix (_save_narrow_txns c7Rows true DataType.fctHr) 1 c7Store =
      [] ∧
    ¬ (execPrefix (_save_narrow_txns c7Rows true DataType.fctHr) 1 c7Store =
        c7Store ∨
       execPrefix (_save_narrow_txns c7Rows true DataType.fctHr) 1 c7Store =
        execPrefix (_save_narrow_txns c7Rows true DataType.fctHr) 2
          c7Store) := by
  refine ⟨rfl, by decide, by decide, ?_⟩
  rintro (h | h) <;> revert h <;> decide

/-- C7 (amended): the range delete and the bulk insert of `_save_narrow`
run as two separate transactions, each atomic on its own but not jointly:
running both yields exactly the saved store, there are exactly two
transactions whenever there are rows, and the state after the first
transaction alone is the store with the range deleted (when overwrite is on
and the span is non-empty) with nothing yet inserted. -/
theorem C7_save_runs_two_separate_transactions (store : List StoreRow)
    (rows : List Row) (ow : Bool) (dt : DataType) :
    (execPrefix (_save_narrow_txns rows ow dt) 2 store =
      (_save_narrow store rows ow dt).1) ∧
    (rows.isEmpty = false → (_save_narrow_txns rows ow dt).length = 2) ∧
    (∀ a b, rows.isEmpty = false → _span rows = (some a, some b) →
      execPrefix (_save_narrow_txns rows ow dt) 1 store =
        (if ow then deleteRange store dt a b else store)) := by
  refine ⟨?_, ?_, ?_⟩
  · by_cases hre : rows.isEmpty
    · simp [execPrefix, _save_narrow_txns, _save_narrow, hre]
    · simp only [Bool.not_eq_true] at hre
      simp only [_save_narrow_txns, _save_narrow, hre, Bool.false_eq_true,
        if_false]
      cases ow <;> cases h1 : (_span rows).1 <;> cases h2 : (_span rows).2 <;>
        simp [execPrefix, h1, h2]
  · intro hre
    simp [_save_narrow_txns, hre]
  · intro a b hre hspan
    have h1 : (_span rows).1 = some a := by rw [hspan]
    have h2 : (_span rows).2 = some b := by rw [hspan]
    simp only [_save_narrow_txns, hre, Bool.false_eq_true, if_false]
    cases ow <;> simp [execPrefix, h1, h2]

/-- Witness for the amended C7 at the counterexample input: both
transactions together produce the saved store, and the first alone leaves
exactly the range-deleted store. -/
theorem C7_save_runs_two_separate_transactions_witness :
    c7Rows.isEmpty = false ∧ _span c7Rows = (some 100, some 100) ∧
    execPrefix (_save_narrow_txns c7Rows true DataType.fctHr) 1 c7Store =
      (if true then deleteRange c7Store DataType.fctHr 100 100
       else c7Store) ∧
    execPrefix (_save_narrow_txns c7Rows true DataType.fctHr) 2 c7Store =
      (_save_narrow c7Store c7Rows true DataType.fctHr).1 :=
  ⟨by decide, by decide,
   (C7_save_runs_two_separate_transactions c7Store c7Rows true
      DataType.fctHr).2.2 100 100 (by decide) (by decide),
   (C7_save_runs_two_separate_transactions c7Store c7Rows true
      DataType.fctHr).1⟩
